import Mathlib

/-!
Verification development for the Studio Velocity automation repository
(src/automation.py and src/telegram_notification.py).

Python strings are modelled as `List Char` (`Str`), dictionaries with the
fields the code reads as structures with `Option` fields (an absent key is
`none`), raised exceptions as `Except`, and HTTP calls as oracle functions
passed in as parameters.  Each definition mirrors the corresponding Python
function; its doc comment names the source symbol.
-/

set_option maxRecDepth 100000

/-- Python strings, modelled as lists of unicode characters. -/
abbrev Str := List Char

/-- Decimal digit string of a natural number (as Python's `str`/`%d`). -/
def natDigits (n : Nat) : Str := Nat.toDigits 10 n

/-- Zero-padded two-digit rendering (as `strftime` `%d`/`%m`/`%H`/`%M`). -/
def pad2 (n : Nat) : Str := if n < 10 then '0' :: natDigits n else natDigits n

/-- Zero-padded four-digit rendering (as `strftime` `%Y` / `isoformat` year). -/
def pad4 (n : Nat) : Str := List.replicate (4 - (natDigits n).length) '0' ++ natDigits n

/-- Does `s` start with `pat`?  (helper for the model of Python's `in`). -/
def strStartsWith : Str → Str → Bool
  | [], _ => true
  | _ :: _, [] => false
  | p :: ps, c :: cs => p == c && strStartsWith ps cs

/-- Python's substring test `pat in s`. -/
def strContains (pat : Str) : Str → Bool
  | [] => strStartsWith pat []
  | c :: cs => strStartsWith pat (c :: cs) || strContains pat cs

/-- Model of Python's `str.lower` (ASCII case folding; the repository only
compares ASCII nicknames and names). -/
def strLower (s : Str) : Str := s.map Char.toLower

/-- Lexicographic `≤` on strings by unicode code point, as Python compares
strings (used by `sorted`). -/
def strLe : Str → Str → Bool
  | [], _ => true
  | _ :: _, [] => false
  | a :: as, b :: bs => if a = b then strLe as bs else decide (a.toNat < b.toNat)

/-- Stable insertion into a sorted list: model of one step of Python's
stable `sorted`. -/
def insertSorted (le : α → α → Bool) (x : α) : List α → List α
  | [] => [x]
  | y :: ys => if le x y then x :: y :: ys else y :: insertSorted le x ys

/-- Stable sort (insertion sort), modelling Python's `sorted(list, key=...)`:
stable, so it produces exactly the permutation Timsort produces. -/
def sortBy (le : α → α → Bool) (l : List α) : List α := l.foldr (insertSorted le) []

/-- The characters Python's `str.splitlines` treats as line boundaries. -/
def isLineBreak (c : Char) : Bool :=
  c == '\n' || c == '\r' || c.toNat == 11 || c.toNat == 12 || c.toNat == 28 ||
  c.toNat == 29 || c.toNat == 30 || c.toNat == 133 || c.toNat == 8232 || c.toNat == 8233

/-- Worker for `splitlines`; `acc` holds the current line reversed. -/
def splitlinesGo : Str → Str → List Str
  | [], acc => if acc = [] then [] else [acc.reverse]
  | '\r' :: '\n' :: rest, acc => acc.reverse :: splitlinesGo rest []
  | c :: rest, acc =>
      if isLineBreak c then acc.reverse :: splitlinesGo rest []
      else splitlinesGo rest (c :: acc)

/-- Model of Python's `str.splitlines()` (no `keepends`). -/
def splitlines (s : Str) : List Str := splitlinesGo s []

/-- Model of `"\n".join(lines)` as used by `_split_message` and
`format_spot_summary` in src/telegram_notification.py. -/
def joinLines : List Str → Str
  | [] => []
  | [l] => l
  | l :: ls => l ++ '\n' :: joinLines ls

/-- The hard-slicing loop `for start in range(0, line_len, limit)` of
`_split_message` (src/telegram_notification.py, lines 57-58); faithful for
`limit ≥ 1` (Python raises `ValueError` on a zero step). -/
def sliceLine (limit : Nat) (l : Str) : List Str :=
  (List.range ((l.length + limit - 1) / limit)).map fun i => (l.drop (i * limit)).take limit

/-- Loop state of `_split_message`: accumulated chunks, the lines of the
chunk under construction, and the tracked joined length `current_len`. -/
structure SplitState where
  chunks : List Str
  currentLines : List Str
  currentLen : Nat
deriving DecidableEq

/-- One iteration of the `for line in message.splitlines()` loop of
`_split_message` (src/telegram_notification.py, lines 47-71). -/
def splitStep (limit : Nat) (st : SplitState) (line : Str) : SplitState :=
  if limit < line.length then
    let chunks1 := if st.currentLines = [] then st.chunks
                   else st.chunks ++ [joinLines st.currentLines]
    ⟨chunks1 ++ sliceLine limit line, [], 0⟩
  else
    let additional := if st.currentLines = [] then line.length else line.length + 1
    if st.currentLines ≠ [] ∧ limit < st.currentLen + additional then
      ⟨st.chunks ++ [joinLines st.currentLines], [line], line.length⟩
    else
      ⟨st.chunks, st.currentLines ++ [line],
        if st.currentLines = [] then line.length else st.currentLen + 1 + line.length⟩

/-- Model of `TELEGRAM_MESSAGE_LIMIT` (src/telegram_notification.py, line 23). -/
def TELEGRAM_MESSAGE_LIMIT : Nat := 4096

/-- Model of `_split_message` (src/telegram_notification.py, lines 37-76). -/
def split_message (message : Str) (limit : Nat) : List Str :=
  if message.length ≤ limit then [message]
  else
    let final := (splitlines message).foldl (splitStep limit) ⟨[], [], 0⟩
    final.chunks ++ (if final.currentLines = [] then [] else [joinLines final.currentLines])


/-!  ## Dates and times

Model of the slice of Python's `datetime` that the repository uses:
`fromisoformat`, `.date()`, `.weekday()`, `.timetz()` comparison against
`time(hour=19)`, `.strftime`, and `.isoformat` of dates.
-/

/-- A parsed timestamp: the fields `datetime.fromisoformat` produces.
`tz` is the UTC offset in minutes when the timestamp is offset-aware. -/
structure PyDateTime where
  year : Nat
  month : Nat
  day : Nat
  hour : Nat
  minute : Nat
  second : Nat
  usecond : Nat
  tz : Option Int
deriving DecidableEq

/-- Gregorian leap year, as `calendar.isleap` / `datetime` use it. -/
def leapYear (y : Nat) : Bool := (y % 4 == 0 && y % 100 != 0) || y % 400 == 0

/-- Days in a month of the proleptic Gregorian calendar. -/
def daysInMonth (y m : Nat) : Nat :=
  if m = 2 then (if leapYear y then 29 else 28)
  else if m = 4 || m = 6 || m = 9 || m = 11 then 30
  else 31

/-- Days in the year strictly before month `m`. -/
def daysBeforeMonth (y m : Nat) : Nat :=
  ((List.range (m - 1)).map fun i => daysInMonth y (i + 1)).sum

/-- Proleptic Gregorian ordinal of a date (0001-01-01 is day 1), as
`datetime.date.toordinal`. -/
def toOrdinal (y m d : Nat) : Nat :=
  365 * (y - 1) + (y - 1) / 4 - (y - 1) / 100 + (y - 1) / 400 + daysBeforeMonth y m + d

/-- The `datetime.weekday()`: Monday = 0 … Sunday = 6 (0001-01-01 is a Monday). -/
def pyWeekday (dt : PyDateTime) : Nat := (toOrdinal dt.year dt.month dt.day + 6) % 7


/-- The `start_dt.timetz().replace(tzinfo=None) <= time(hour=19)` — the naive
time-of-day comparison in `filter_events` (src/automation.py, line 158). -/
def timeAtMost19 (dt : PyDateTime) : Bool :=
  dt.hour < 19 || (dt.hour == 19 && dt.minute == 0 && dt.second == 0 && dt.usecond == 0)

/-- The `date().isoformat()` — `YYYY-MM-DD`. -/
def dateIso (dt : PyDateTime) : Str :=
  pad4 dt.year ++ '-' :: pad2 dt.month ++ '-' :: pad2 dt.day

/-- The `strftime("%d/%m/%Y")` as used for the date headers. -/
def dateLabel (dt : PyDateTime) : Str :=
  pad2 dt.day ++ '/' :: pad2 dt.month ++ '/' :: pad4 dt.year

/-- The `strftime("%H:%M")` as used for the hour fallback. -/
def hourLabel (dt : PyDateTime) : Str := pad2 dt.hour ++ ':' :: pad2 dt.minute

/-- One decimal digit. -/
def digitVal (c : Char) : Option Nat :=
  if c.isDigit then some (c.toNat - 48) else none

/-- Two-digit number. -/
def twoDigits (a b : Char) : Option Nat := do
  let x ← digitVal a
  let y ← digitVal b
  pure (10 * x + y)

/-- Parse the optional fractional-seconds part `.fff` / `.ffffff`
followed by the remainder of the string. -/
def parseFraction : Str → Option (Nat × Str)
  | '.' :: a :: b :: c :: d :: e :: f :: rest => do
      let ds ← [a, b, c, d, e, f].mapM digitVal
      pure (ds.foldl (fun acc x => 10 * acc + x) 0, rest)
  | '.' :: a :: b :: c :: rest => do
      let ds ← [a, b, c].mapM digitVal
      pure (1000 * ds.foldl (fun acc x => 10 * acc + x) 0, rest)
  | rest => some (0, rest)

/-- Parse the trailing UTC offset (`±HH:MM`, or `Z`, or absent). -/
def parseOffset : Str → Option (Option Int)
  | [] => some none
  | ['Z'] => some (some 0)
  | ['+', h1, h2, ':', m1, m2] => do
      let h ← twoDigits h1 h2
      let m ← twoDigits m1 m2
      if h < 24 && m < 60 then pure (some (Int.ofNat (60 * h + m))) else none
  | ['-', h1, h2, ':', m1, m2] => do
      let h ← twoDigits h1 h2
      let m ← twoDigits m1 m2
      if h < 24 && m < 60 then pure (some (-(Int.ofNat (60 * h + m)))) else none
  | _ => none

/-- Parse the time-of-day part (after the `T` separator). -/
def parseTimePart (y mo d : Nat) : Str → Option PyDateTime
  | h1 :: h2 :: ':' :: m1 :: m2 :: rest => do
      let h ← twoDigits h1 h2
      let mi ← twoDigits m1 m2
      let (s, us, rest2) ← match rest with
        | ':' :: s1 :: s2 :: rest1 => do
            let s ← twoDigits s1 s2
            let (us, rest2) ← parseFraction rest1
            pure (s, us, rest2)
        | _ => pure (0, 0, rest)
      let tz ← parseOffset rest2
      if h < 24 && mi < 60 && s < 60 then
        pure ⟨y, mo, d, h, mi, s, us, tz⟩
      else none
  | _ => none

/-- Model of `datetime.fromisoformat` on the ISO-8601 extended forms the
repository exchanges: `YYYY-MM-DD`, optionally followed by
`T`/space + `HH:MM[:SS[.fff|.ffffff]]`, optionally followed by `±HH:MM`
or `Z`.  Returns `none` where Python raises `ValueError`. -/
def fromisoformat : Str → Option PyDateTime
  | y1 :: y2 :: y3 :: y4 :: '-' :: mo1 :: mo2 :: '-' :: d1 :: d2 :: rest => do
      let ys ← [y1, y2, y3, y4].mapM digitVal
      let y := ys.foldl (fun acc x => 10 * acc + x) 0
      let mo ← twoDigits mo1 mo2
      let d ← twoDigits d1 d2
      if 1 ≤ mo && mo ≤ 12 && 1 ≤ d && d ≤ daysInMonth y mo then
        match rest with
        | [] => pure ⟨y, mo, d, 0, 0, 0, 0, none⟩
        | 'T' :: timePart => parseTimePart y mo d timePart
        | ' ' :: timePart => parseTimePart y mo d timePart
        | _ => none
      else none
  | _ => none


/-!  ## src/automation.py -/

/-- The `RawScheduleEntry`: the fields of a schedule-endpoint record that
`filter_events` reads.  `token` is assumed present (the code indexes
`event["token"]` unconditionally). -/
structure RawEntry where
  instructor : Option Int
  closed_at : Option Str
  start_time : Option Str
  token : Str
deriving DecidableEq

/-- Model of `ScheduleEvent` dataclass (src/automation.py, lines 41-46). -/
structure ScheduleEvent where
  token : Str
  start_time : PyDateTime
deriving DecidableEq

/-- Errors the pipeline can raise.  `parse` is the `ValueError` of
`_parse_start_time`; `transport` a `requests` HTTP error; `schema` the
`TypeError` for a non-list `results` field. -/
inductive AutoErr where
  | parse (msg : Str)
  | transport
  | schema
deriving DecidableEq

/-- Equality of `Except` values is decidable when both components' are
(needed to evaluate the embedded functions on concrete inputs). -/
instance exceptDecEq {ε α : Type} [DecidableEq ε] [DecidableEq α] :
    DecidableEq (Except ε α) := fun a b =>
  match a, b with
  | .error x, .error y =>
      if h : x = y then .isTrue (congrArg Except.error h)
      else .isFalse fun hc => h (Except.error.inj hc)
  | .ok x, .ok y =>
      if h : x = y then .isTrue (congrArg Except.ok h)
      else .isFalse fun hc => h (Except.ok.inj hc)
  | .error _, .ok _ => .isFalse fun hc => Except.noConfusion hc
  | .ok _, .error _ => .isFalse fun hc => Except.noConfusion hc

/-- Model of `_parse_start_time` (src/automation.py, lines 49-60): parse, or raise
`ValueError` with the message built from the raw value. -/
def parse_start_time (raw : Str) : Except AutoErr PyDateTime :=
  match fromisoformat raw with
  | some dt => .ok dt
  | none => .error (.parse ("Valor de start_time invalido: ".toList ++ raw))

/-- Model of `classify_event_day` (src/automation.py, lines 109-130).  The Brazilian
holiday calendar comes from the external `holidays` package; it is modelled
as the oracle `isHoliday` over `(year, month, day)`. -/
def classify_event_day (isHoliday : Nat × Nat × Nat → Bool) (dt : PyDateTime) : Str :=
  if isHoliday (dt.year, dt.month, dt.day) then ("feriado".toList)
  else if 5 ≤ pyWeekday dt then ("final_de_semana".toList)
  else ("dia_de_semana".toList)

/-- Loop body of `filter_events` over the remaining entries
(src/automation.py, lines 143-162). -/
def filterEventsGo (isHoliday : Nat × Nat × Nat → Bool) (instructor_id : Int) :
    List RawEntry → Except AutoErr (List ScheduleEvent)
  | [] => .ok []
  | e :: rest =>
    if e.instructor ≠ some instructor_id then filterEventsGo isHoliday instructor_id rest
    else if e.closed_at.isSome then filterEventsGo isHoliday instructor_id rest
    else
      match e.start_time with
      | none => filterEventsGo isHoliday instructor_id rest
      | some raw =>
        if raw = [] then filterEventsGo isHoliday instructor_id rest
        else
          match parse_start_time raw with
          | .error err => .error err
          | .ok dt =>
            if classify_event_day isHoliday dt = "dia_de_semana".toList ∧ timeAtMost19 dt then
              filterEventsGo isHoliday instructor_id rest
            else do
              let tail ← filterEventsGo isHoliday instructor_id rest
              pure (⟨e.token, dt⟩ :: tail)

/-- Model of `filter_events` (src/automation.py, lines 133-164).  A raised
`ValueError` aborts the whole call, so the result is `Except`. -/
def filter_events (isHoliday : Nat × Nat × Nat → Bool) (raw_events : List RawEntry)
    (instructor_id : Int) : Except AutoErr (List ScheduleEvent) :=
  filterEventsGo isHoliday instructor_id raw_events

/-- The `duration_time` values: the payload carries a number or a display
string (numbers modelled for the sub-million values the API serves, where
Python's `f"…:g"` prints the plain decimal digits). -/
inductive DurationVal where
  | num (n : Nat)
  | strv (s : Str)
deriving DecidableEq

/-- The `instructor_detail` sub-record of an event payload. -/
structure InstructorDetail where
  nickname : Option Str
  first_name : Option Str
  last_name : Option Str
  tagline : Option Str
deriving DecidableEq

/-- One entry of `map_spots` (a `SeatRecord`): `bookings` entries are
opaque, only emptiness matters. -/
structure SeatRecord where
  code : Option Str
  bookings : Option (List Unit)
  maintenance : Option Bool
deriving DecidableEq

/-- The `EventDetail`: the event-payload fields `extract_available_spots`
reads. -/
structure EventDetail where
  token : Option Str
  name : Option Str
  event_hour : Option Str
  duration_time : Option DurationVal
  instructor_detail : Option InstructorDetail
  map_spots : Option (List SeatRecord)
deriving DecidableEq

/-- The `AvailableSpot`: the dict built by `extract_available_spots`
(src/automation.py, lines 200-211).  Pipeline spots carry no
`start_time` key, so reading it yields `none`; `format_spot_summary` may
also be fed dicts that do carry one, hence the optional field. -/
structure Spot where
  token : Option Str
  spot_code : Option Str
  event_name : Option Str
  event_hour : Option Str
  duration_time : Option DurationVal
  instructor_nickname : Option Str
  instructor_name : Str
  instructor_tagline : Option Str
  start_time : Option Str
deriving DecidableEq

/-- The `sep.join(parts)`. -/
def joinWithSep (sep : Str) : List Str → Str
  | [] => []
  | [l] => l
  | l :: ls => l ++ sep ++ joinWithSep sep ls

/-- The whitespace Python's `str.strip()` removes (ASCII subset). -/
def pyIsSpace (c : Char) : Bool :=
  c == ' ' || c == '\t' || c == '\n' || c == '\r' || c.toNat == 11 || c.toNat == 12

/-- Python's `str.strip()`. -/
def pyStrip (s : Str) : Str :=
  ((s.dropWhile pyIsSpace).reverse.dropWhile pyIsSpace).reverse

/-- The `" ".join(part for part in (first_name, last_name) if part).strip()`
(src/automation.py, line 183). -/
def joinNameParts (first last : Str) : Str :=
  pyStrip (joinWithSep [' '] ([first, last].filter (· ≠ [])))

/-- The seat test of `extract_available_spots`: kept iff `bookings`
(default `[]`) is empty and `maintenance` (default `False`) is falsy
(src/automation.py, lines 193-198). -/
def seatAvailable (sp : SeatRecord) : Bool :=
  sp.bookings.getD [] = [] && sp.maintenance.getD false = false

/-- The dict appended for one available seat (src/automation.py,
lines 200-211). -/
def mkSpot (payload : EventDetail) (sp : SeatRecord) : Spot :=
  let detail := payload.instructor_detail.getD ⟨none, none, none, none⟩
  ⟨payload.token, sp.code, payload.name, payload.event_hour, payload.duration_time,
    detail.nickname,
    joinNameParts (detail.first_name.getD []) (detail.last_name.getD []),
    detail.tagline, none⟩

/-- Loop of `extract_available_spots` over `map_spots`
(src/automation.py, lines 193-211). -/
def extractSpotsGo (payload : EventDetail) : List SeatRecord → List Spot
  | [] => []
  | sp :: rest =>
    if sp.bookings.getD [] ≠ [] ∨ sp.maintenance.getD false then
      extractSpotsGo payload rest
    else
      mkSpot payload sp :: extractSpotsGo payload rest

/-- Model of `extract_available_spots` (src/automation.py, lines 176-213). -/
def extract_available_spots (payload : EventDetail) : List Spot :=
  extractSpotsGo payload (payload.map_spots.getD [])

/-- One page's response from the schedule endpoint, as the oracle
delivers it: a transport failure, a payload whose `results` is not a
list, or the list of entries. -/
inductive PageResult where
  | fail
  | notAList
  | ok (results : List RawEntry)

/-- Model of `fetch_schedule` (src/automation.py, lines 63-106): downloads the
given pages in order and concatenates their `results`; an HTTP error
raises, a non-list `results` raises `TypeError`.  The HTTP layer is the
oracle `getPage`; the query parameters (window dates, sort, unit
constants) only influence the oracle's answer. -/
def fetch_schedule (getPage : Nat → PageResult) : List Nat → Except AutoErr (List RawEntry)
  | [] => .ok []
  | p :: rest =>
    match getPage p with
    | .fail => .error .transport
    | .notAList => .error .schema
    | .ok results => do
        let tail ← fetch_schedule getPage rest
        pure (results ++ tail)

/-- Model of `collect_available_spots` (src/automation.py, lines 216-227): one
sequential detail fetch per candidate, extending the accumulator. -/
def collect_available_spots (fetchDetail : Str → Except AutoErr EventDetail) :
    List ScheduleEvent → Except AutoErr (List Spot)
  | [] => .ok []
  | ev :: rest => do
      let payload ← match fetchDetail ev.token with
        | .error e => .error e
        | .ok payload => pure payload
      let tail ← collect_available_spots fetchDetail rest
      pure (extract_available_spots payload ++ tail)

/-- Observable lifecycle events of the internally created
`requests.Session`. -/
inductive SessionAction where
  | created
  | closed
deriving DecidableEq

/-- The three sequential stages of `run_automation` (src/automation.py,
lines 235-237): schedule fetch, business-rule filter, detail collection;
any raised exception short-circuits. -/
def runPipeline (getPage : Nat → PageResult)
    (fetchDetail : Str → Except AutoErr EventDetail)
    (isHoliday : Nat × Nat × Nat → Bool) : Except AutoErr (List Spot) := do
  let schedule ← fetch_schedule getPage [1, 2]
  let filtered ← filter_events isHoliday schedule 525
  collect_available_spots fetchDetail filtered

/-- Model of `run_automation` (src/automation.py, lines 230-242).  Returns the
value of the Python call (the bare list of available-spot dicts, or the
propagated exception) together with the trace of lifecycle actions on
the internally created session.  When `sessionProvided` is true the
caller passed its own session and no `created`/`closed` action occurs;
when false, `requests.Session()` runs first, and
`internal_session.close()` runs only after the three stages succeed
(there is no `try`/`finally` in the source, so a raised exception
propagates before the close line is reached). -/
def run_automation (getPage : Nat → PageResult)
    (fetchDetail : Str → Except AutoErr EventDetail)
    (isHoliday : Nat × Nat × Nat → Bool) (sessionProvided : Bool) :
    Except AutoErr (List Spot) × List SessionAction :=
  let created := if sessionProvided then [] else [SessionAction.created]
  match runPipeline getPage fetchDetail isHoliday with
  | .error e => (.error e, created)
  | .ok spots => (.ok spots, created ++ (if sessionProvided then [] else [SessionAction.closed]))

/-!  ## src/telegram_notification.py -/

/-- Model of `WEEKDAY_LABELS` (src/telegram_notification.py, lines 26-34). -/
def WEEKDAY_LABELS : List Str :=
  ["Segunda-feira".toList, "Terça-feira".toList, "Quarta-feira".toList,
   "Quinta-feira".toList, "Sexta-feira".toList, "Sábado".toList, "Domingo".toList]

/-- Python's `a or b` on strings (empty string is falsy). -/
def pyOr (a b : Str) : Str := if a = [] then b else a

/-- The `dict.get(key) or ""`: an absent key and an empty value both give `""`. -/
def fieldStr (o : Option Str) : Str := o.getD []

/-- Model of `_parse_start_time` of src/telegram_notification.py (lines 79-88):
falsy input and unparseable input both yield `None`. -/
def tg_parse_start_time (value : Option Str) : Option PyDateTime :=
  match value with
  | none => none
  | some s => if s = [] then none else fromisoformat s

/-- Model of `_build_instructor_label` (src/telegram_notification.py, lines 91-100). -/
def build_instructor_label (s : Spot) : Str :=
  let nickname := fieldStr s.instructor_nickname
  let name := s.instructor_name
  if nickname ≠ [] ∧ name ≠ [] ∧ strContains (strLower nickname) (strLower name) = false then
    name ++ " (".toList ++ nickname ++ ")".toList
  else if nickname ≠ [] then nickname
  else if name ≠ [] then name
  else ("Instrutor".toList)

/-- Replacement `html.escape` performs for one character
(`quote=True`: `&`, `<`, `>`, `"` and the apostrophe). -/
def escapeChar (c : Char) : Str :=
  if c = '&' then ("&amp;".toList)
  else if c = '<' then ("&lt;".toList)
  else if c = '>' then ("&gt;".toList)
  else if c = '"' then ("&quot;".toList)
  else if c = Char.ofNat 39 then ("&#x27;".toList)
  else [c]

/-- Model of `html.escape` (imported as `escape` in src/telegram_notification.py). -/
def htmlEscape (s : Str) : Str := (s.map escapeChar).flatten

/-- Model of `FormattedSummary` dataclass (src/telegram_notification.py,
lines 103-108). -/
structure FormattedSummary where
  html : Str
  plain_text : Str
deriving DecidableEq

/-- Model of `_format_bike_codes` (src/telegram_notification.py, lines 111-125):
`(html, plain)` rendering of the free-seat codes. -/
def format_bike_codes (codes : List Str) : Str × Str :=
  if codes = [] then
    ("Nenhuma bike com código disponível".toList, "Nenhuma bike com código disponível".toList)
  else
    let joined_plain := joinWithSep (", ".toList) codes
    let joined_html := htmlEscape (joinWithSep (" • ".toList) codes)
    let count := natDigits codes.length
    let plural := if 1 < codes.length then ['s'] else []
    ("<b>".toList ++ count ++ " bike".toList ++ plural ++ " livres:</b> ".toList ++ joined_html,
     count ++ " bike".toList ++ plural ++ " livres: ".toList ++ joined_plain)

/-- The sort key `item.get("start_time") or item.get("event_hour") or ""`
(src/telegram_notification.py, line 133). -/
def sortKey (s : Spot) : Str := pyOr (fieldStr s.start_time) (fieldStr s.event_hour)

/-- Model of `sorted(list(spots), key=...)` (src/telegram_notification.py,
lines 131-134). -/
def sortSpots (spots : List Spot) : List Spot :=
  sortBy (fun a b => strLe (sortKey a) (sortKey b)) spots

/-- One `event_key` bucket: `{"spots": [...], "start_dt": ...}`
(src/telegram_notification.py, line 165). -/
structure EventGroup where
  spots : List Spot
  start_dt : Option PyDateTime
deriving DecidableEq

/-- First value bound to `key` in an insertion-ordered dict. -/
def assocFind (k : Str) : List (Str × α) → Option α
  | [] => none
  | (k2, v) :: rest => if k2 = k then some v else assocFind k rest

/-- In-place update of the value bound to `key`. -/
def assocUpdate (k : Str) (f : α → α) : List (Str × α) → List (Str × α)
  | [] => []
  | (k2, v) :: rest => if k2 = k then (k2, f v) :: rest else (k2, v) :: assocUpdate k f rest

/-- The day bucket key: the calendar date of the parsed `start_time`, or
`"sem-data"` (src/telegram_notification.py, lines 147-148). -/
def dayKeyOf (s : Spot) : Str :=
  match tg_parse_start_time s.start_time with
  | some dt => dateIso dt
  | none => "sem-data".toList

/-- The composite `event_key` (src/telegram_notification.py,
lines 154-161). -/
def eventKeyOf (s : Spot) : Str :=
  joinWithSep ['|']
    [pyOr (fieldStr s.token) ("sem-token".toList),
     pyOr (fieldStr s.start_time) ("sem-inicio".toList),
     pyOr (fieldStr s.event_hour) ("sem-horario".toList),
     pyOr (fieldStr s.event_name) ("sem-nome".toList)]

/-- The grouped structure: `grouped_by_day` with its insertion order
(Python's dict preserves it, and `day_order` mirrors it). -/
abbrev GroupedByDay := List (Str × List (Str × EventGroup))

/-- One iteration of the grouping loop `for spot in spots_list`
(src/telegram_notification.py, lines 146-171). -/
def addSpotToGroups (acc : GroupedByDay) (s : Spot) : GroupedByDay :=
  let start_dt := tg_parse_start_time s.start_time
  let day_key := dayKeyOf s
  let event_key := eventKeyOf s
  let acc1 := if (assocFind day_key acc).isSome then acc else acc ++ [(day_key, [])]
  assocUpdate day_key (fun groups =>
    let groups1 := if (assocFind event_key groups).isSome then groups
                   else groups ++ [(event_key, EventGroup.mk [] start_dt)]
    assocUpdate event_key (fun g =>
      let g1 := if g.start_dt = none ∧ start_dt.isSome then EventGroup.mk g.spots start_dt
                else g
      EventGroup.mk (g1.spots ++ [s]) g1.start_dt) groups1) acc1

/-- The whole grouping loop, over the (already sorted) spot list. -/
def buildGroups (sortedSpots : List Spot) : GroupedByDay :=
  sortedSpots.foldl addSpotToGroups []

/-- The date header pair `(header_html, header_text)`
(src/telegram_notification.py, lines 192-199). -/
def dayHeader (start_dt : Option PyDateTime) : Str × Str :=
  match start_dt with
  | none => ("<b>📅 Data não informada</b>".toList, "📅 Data não informada".toList)
  | some dt =>
      let weekday := WEEKDAY_LABELS.getD (pyWeekday dt) []
      let dl := dateLabel dt
      ("<b>📅 ".toList ++ htmlEscape dl ++ " (".toList ++ htmlEscape weekday ++ ")</b>".toList,
       "📅 ".toList ++ dl ++ " (".toList ++ weekday ++ ")".toList)

/-- The lines one event group contributes `(html, text)`
(src/telegram_notification.py, lines 204-278); `index` is the
`enumerate` counter, which triggers the separator when positive. -/
def renderEventGroup (index : Nat) (g : EventGroup) : List Str × List Str :=
  match g.spots with
  | [] => ([], [])
  | rep :: _ =>
    let sepLines : List Str := if 0 < index then ["──────────────".toList, []] else []
    let eh0 := fieldStr rep.event_hour
    let eh1 := match g.start_dt with
      | some dt => if eh0 = [] then hourLabel dt else eh0
      | none => eh0
    let hour_label := pyOr eh1 ("Horário não informado".toList)
    let duration := match rep.duration_time with
      | some (.num n) => natDigits n ++ " min".toList
      | some (.strv s) => if s = [] then ("Duração não informada".toList) else s
      | none => "Duração não informada".toList
    let event_name := pyOr (fieldStr rep.event_name) ("Aula".toList)
    let instructor := build_instructor_label rep
    let tagline := fieldStr rep.instructor_tagline
    let bike_codes := g.spots.filterMap fun si =>
      match si.spot_code with
      | none => none
      | some c => if c = [] then none else some c
    let bikes := format_bike_codes bike_codes
    let html := sepLines ++
      ["╭────────────────────────────╮".toList,
       "│ 🕒 <b>".toList ++ htmlEscape hour_label ++ "</b> • ".toList ++ htmlEscape duration,
       "│ 🎯 ".toList ++ htmlEscape event_name,
       "│ 👤 ".toList ++ htmlEscape instructor] ++
      (if tagline = [] then [] else ["│ ✨ ".toList ++ htmlEscape tagline]) ++
      ["│ 🚲 ".toList ++ bikes.1, "╰────────────────────────────╯".toList, []]
    let text := sepLines ++
      ["╭────────────────────────────╮".toList,
       "│ 🕒 ".toList ++ hour_label ++ " • ".toList ++ duration,
       "│ 🎯 ".toList ++ event_name,
       "│ 👤 ".toList ++ instructor] ++
      (if tagline = [] then [] else ["│ ✨ ".toList ++ tagline]) ++
      ["│ 🚲 ".toList ++ bikes.2, "╰────────────────────────────╯".toList, []]
    (html, text)

/-- The inner `for index, event_group in enumerate(day_groups.values())`
loop. -/
def renderGroupsGo (index : Nat) : List (Str × EventGroup) → List Str × List Str
  | [] => ([], [])
  | (_, g) :: rest =>
    let cur := renderEventGroup index g
    let tail := renderGroupsGo (index + 1) rest
    (cur.1 ++ tail.1, cur.2 ++ tail.2)

/-- The body of the `for day_key in day_order` loop for one day bucket
(src/telegram_notification.py, lines 187-281): header from the first
group's `start_dt`, then the event blocks, then one blank line. -/
def renderDay (dayGroups : List (Str × EventGroup)) : List Str × List Str :=
  match dayGroups with
  | [] => ([], [])
  | (_, g0) :: _ =>
    let hd := dayHeader g0.start_dt
    let body := renderGroupsGo 0 dayGroups
    (hd.1 :: body.1 ++ [[]], hd.2 :: body.2 ++ [[]])

/-- All day buckets, in `day_order`. -/
def renderDays : GroupedByDay → List Str × List Str
  | [] => ([], [])
  | (_, gs) :: rest =>
    let cur := renderDay gs
    let tail := renderDays rest
    (cur.1 ++ tail.1, cur.2 ++ tail.2)

/-- The full `(html_lines, text_lines)` of a non-empty summary
(src/telegram_notification.py, lines 173-284). -/
def formatLines (sortedSpots : List Spot) : List Str × List Str :=
  let days := renderDays (buildGroups sortedSpots)
  (["<b>🏋️‍♀️ Vagas de aula liberadas!</b>".toList, [],
    "Confira as oportunidades nas próximas duas semanas:".toList, []] ++
     days.1 ++ ["<i>Boas pedaladas! 🚴‍♀️</i>".toList],
   ["🏋️‍♀️ Vagas de aula liberadas!".toList, [],
    "Confira as oportunidades nas próximas duas semanas:".toList, []] ++
     days.2 ++ ["Boas pedaladas! 🚴‍♀️".toList])

/-- Model of `format_spot_summary` (src/telegram_notification.py, lines 128-289). -/
def format_spot_summary (spots : List Spot) : FormattedSummary :=
  let spots_list := sortSpots spots
  if spots_list = [] then
    let message := "Nenhuma vaga disponível encontrada no período consultado.".toList
    ⟨"<b>".toList ++ htmlEscape message ++ "</b>".toList, message⟩
  else
    let lines := formatLines spots_list
    ⟨pyStrip (joinLines lines.1), pyStrip (joinLines lines.2)⟩

/-- Errors `send_telegram_message` raises: `ValueError` on a missing
credential, `requests.HTTPError` on a failed delivery. -/
inductive TgErr where
  | config (msg : Str)
  | transport
deriving DecidableEq

/-- The sequential delivery loop of `send_telegram_message`
(src/telegram_notification.py, lines 318-340): posts each chunk in order
through the oracle, collecting the JSON responses; an HTTP failure
raises. -/
def sendChunksGo (post : Str → Except Unit Str) : List Str → Except TgErr (List Str)
  | [] => .ok []
  | c :: rest =>
    match post c with
    | .error _ => .error .transport
    | .ok r => do
        let tail ← sendChunksGo post rest
        pure (r :: tail)

/-- Model of `send_telegram_message` (src/telegram_notification.py,
lines 292-345): credential guards, split, sequential deliveries, and
`responses[-1] if responses else {}` (the empty dict modelled as `[]`). -/
def send_telegram_message (post : Str → Except Unit Str) (token chat_id message : Str) :
    Except TgErr Str :=
  if token = [] then .error (.config ("Token do bot do Telegram não informado.".toList))
  else if chat_id = [] then .error (.config ("Chat ID do Telegram não informado.".toList))
  else
    match sendChunksGo post (split_message message TELEGRAM_MESSAGE_LIMIT) with
    | .error e => .error e
    | .ok responses => .ok (responses.getLastD [])

/-!  ## Specification-side helper predicates and concrete inputs -/

/-- The per-entry outcome of one `filter_events` loop iteration on a
non-erroring entry, as an `Option`: `some` exactly when the entry is
kept, with the projected `ScheduleEvent`. -/
def keepEntry (isHoliday : Nat × Nat × Nat → Bool) (instructor_id : Int) (e : RawEntry) :
    Option ScheduleEvent :=
  if e.instructor ≠ some instructor_id then none
  else if e.closed_at.isSome then none
  else
    match e.start_time with
    | none => none
    | some raw =>
      if raw = [] then none
      else
        match parse_start_time raw with
        | .error _ => none
        | .ok dt =>
          if classify_event_day isHoliday dt = "dia_de_semana".toList ∧ timeAtMost19 dt then
            none
          else some ⟨e.token, dt⟩

/-- Every chunk fits in `limit` characters. -/
def chunksLenOK (limit : Nat) (cs : List Str) : Prop := ∀ c ∈ cs, c.length ≤ limit

/-- Invariant of the `_split_message` loop state: finished chunks fit,
`current_len` tracks the joined length of `current_lines`, and the chunk
under construction fits whenever it is nonempty. -/
def stInv (limit : Nat) (st : SplitState) : Prop :=
  chunksLenOK limit st.chunks ∧
  st.currentLen = (joinLines st.currentLines).length ∧
  (st.currentLines ≠ [] → st.currentLen ≤ limit)

/-- All spots stored in the day bucket keyed `k`, in stored order. -/
def bucketSpots (acc : GroupedByDay) (k : Str) : List Spot :=
  match assocFind k acc with
  | none => []
  | some groups => (groups.map fun p => p.2.spots).flatten

/-- Schedule entry of the end-to-end scenario: instructor 525, open,
Friday 2025-11-14 at 20:00 local. -/
def entryFriday2000 : RawEntry :=
  ⟨some 525, none, some ("2025-11-14T20:00:00-03:00".toList), "tok1".toList⟩

/-- Same entry at the exclusive boundary 19:00:00. -/
def entryBoundary1900 : RawEntry :=
  ⟨some 525, none, some ("2025-11-14T19:00:00-03:00".toList), "tok1".toList⟩

/-- Same entry one second after the boundary. -/
def entryAfter1900 : RawEntry :=
  ⟨some 525, none, some ("2025-11-14T19:00:01-03:00".toList), "tok1".toList⟩

/-- Matching open entry whose `start_time` is present but empty. -/
def entryEmptyStart : RawEntry := ⟨some 525, none, some [], "tok1".toList⟩

/-- Matching open entry with no `start_time` key. -/
def entryMissingStart : RawEntry := ⟨some 525, none, none, "tok1".toList⟩

/-- Matching open entry whose `start_time` is present but not a
timestamp. -/
def entryMalformed : RawEntry := ⟨some 525, none, some ("banana".toList), "tok1".toList⟩

/-- Detail payload of the end-to-end scenario: one seat, empty bookings,
no maintenance. -/
def detailOneFreeSeat : EventDetail :=
  ⟨some ("tok1".toList), some ("Bike 45".toList), some ("20:00".toList), some (.num 45),
   some ⟨some ("Mari".toList), some ("Mariana".toList), some ("Souza".toList), none⟩,
   some [⟨some ("B01".toList), some [], some false⟩]⟩

/-- The one spot the pipeline extracts from `detailOneFreeSeat`
(note: no `start_time` key — `extract_available_spots` emits none). -/
def pipelineSpot : Spot :=
  ⟨some ("tok1".toList), some ("B01".toList), some ("Bike 45".toList), some ("20:00".toList),
   some (.num 45), some ("Mari".toList), "Mariana Souza".toList, none, none⟩

/-- A spot dict carrying the scenario `start_time` explicitly. -/
def spotWithStart : Spot :=
  ⟨some ("tok1".toList), some ("B01".toList), some ("Bike 45".toList), some ("20:00".toList),
   some (.num 45), some ("Mari".toList), "Mariana Souza".toList, none,
   some ("2025-11-14T20:00:00-03:00".toList)⟩

/-- A spot with no `start_time` and no `event_hour` (sort key `""`). -/
def spotNoDate : Spot :=
  ⟨some ("tok2".toList), some ("B02".toList), some ("Ride".toList), none, none, none,
   "Ana Lima".toList, none, none⟩

/-- A spot whose nickname is a proper substring of the full name while
the two still differ case-insensitively. -/
def spotAna : Spot :=
  ⟨none, none, none, none, none, some ("Ana".toList), "Mariana Silva".toList, none, none⟩

/-- Page oracle of the end-to-end scenario: page 1 returns the Friday
entry, page 2 is empty. -/
def getPageScenario (p : Nat) : PageResult :=
  if p = 1 then .ok [entryFriday2000] else .ok []

/-- Detail oracle of the end-to-end scenario. -/
def fetchDetailScenario (_tok : Str) : Except AutoErr EventDetail := .ok detailOneFreeSeat

/-!  ## Sanity checks of the embedding on concrete values -/

example : split_message ("ab\ncd".toList) 3 = ["ab".toList, "cd".toList] := by decide

example : split_message ("abcdefg".toList) 3 = ["abc".toList, "def".toList, "g".toList] := by
  decide

example : split_message ("ab\ncd\nef".toList) 5 = ["ab\ncd".toList, "ef".toList] := by decide

example : splitlines ("ab\n\ncd\n".toList) = ["ab".toList, [], "cd".toList] := by decide

example : pyWeekday ⟨2025, 11, 14, 20, 0, 0, 0, some (-180)⟩ = 4 := by decide

example : pyWeekday ⟨2025, 11, 15, 10, 0, 0, 0, none⟩ = 5 := by decide

example : pyWeekday ⟨2024, 2, 29, 0, 0, 0, 0, none⟩ = 3 := by decide

example : fromisoformat ("2025-11-14T20:00:00-03:00".toList) =
    some ⟨2025, 11, 14, 20, 0, 0, 0, some (-180)⟩ := by decide

example : fromisoformat ("2025-11-14T18:00:00".toList) =
    some ⟨2025, 11, 14, 18, 0, 0, 0, none⟩ := by decide

example : fromisoformat ("banana".toList) = none := by decide

example : fromisoformat ("2025-02-30T10:00:00-03:00".toList) = none := by decide

example : extract_available_spots detailOneFreeSeat = [pipelineSpot] := by decide

example : format_spot_summary [] =
    ⟨"<b>Nenhuma vaga disponível encontrada no período consultado.</b>".toList,
     "Nenhuma vaga disponível encontrada no período consultado.".toList⟩ := by decide

/-!  ## C5 — spot extraction -/

/-- The extraction loop is filter-then-map over `map_spots`. -/
theorem extractSpotsGo_eq_filter_map (payload : EventDetail) (l : List SeatRecord) :
    extractSpotsGo payload l = (l.filter seatAvailable).map (mkSpot payload) := by
  induction l with
  | nil => rfl
  | cons sp rest ih =>
    by_cases hb : sp.bookings.getD [] = []
    · by_cases hm : sp.maintenance.getD false = true
      · simp [extractSpotsGo, List.filter_cons, seatAvailable, hb, hm, ih]
      · simp [extractSpotsGo, List.filter_cons, seatAvailable, hb, hm, ih]
    · simp [extractSpotsGo, List.filter_cons, seatAvailable, hb, ih]

/-- C5: a seat of `map_spots` yields an `AvailableSpot` iff its
`bookings` (absent ↦ empty) is empty and its `maintenance` flag
(absent ↦ false) is false; all other combinations are excluded, and the
output lists the surviving seats in `map_spots` order — i.e.
`extract_available_spots` is exactly filter-by-`seatAvailable` followed
by the record projection, where
`seatAvailable sp = (bookings default [] is empty ∧ maintenance default
false is false)`. -/
theorem C5_extract_available_spots_characterization (payload : EventDetail) :
    extract_available_spots payload =
      ((payload.map_spots.getD []).filter seatAvailable).map (mkSpot payload) := by
  unfold extract_available_spots
  exact extractSpotsGo_eq_filter_map payload _

/-!  ## C4 — the 19:00 weekday boundary -/

/-- C4: for an entry that matches the instructor id, is open, and
whose parsed timestamp is classified `dia_de_semana`, the filter drops
it exactly when the local time-of-day is ≤ 19:00:00 and keeps it exactly
when the time-of-day is strictly after 19:00:00 (so 19:00:00 itself is
rejected). -/
theorem C4_weekday_evening_cutoff (isHol : Nat × Nat × Nat → Bool) (e : RawEntry)
    (id : Int) (raw : Str) (dt : PyDateTime)
    (hinstr : e.instructor = some id) (hopen : e.closed_at = none)
    (hst : e.start_time = some raw) (hne : raw ≠ [])
    (hparse : parse_start_time raw = .ok dt)
    (hclass : classify_event_day isHol dt = "dia_de_semana".toList) :
    (filter_events isHol [e] id = .ok [] ↔
       (dt.hour < 19 ∨ (dt.hour = 19 ∧ dt.minute = 0 ∧ dt.second = 0 ∧ dt.usecond = 0))) ∧
    (filter_events isHol [e] id = .ok [⟨e.token, dt⟩] ↔
       ¬(dt.hour < 19 ∨ (dt.hour = 19 ∧ dt.minute = 0 ∧ dt.second = 0 ∧ dt.usecond = 0))) := by
  have hb : timeAtMost19 dt = true ↔
      (dt.hour < 19 ∨ (dt.hour = 19 ∧ dt.minute = 0 ∧ dt.second = 0 ∧ dt.usecond = 0)) := by
    simp only [timeAtMost19, Bool.or_eq_true, Bool.and_eq_true, decide_eq_true_eq,
      beq_iff_eq]
    tauto
  by_cases hcut : timeAtMost19 dt = true
  · have hc := hb.mp hcut
    constructor
    · simp [filter_events, filterEventsGo, hinstr, hopen, hst, hne, hparse, hclass, hcut, hc]
    · simp [filter_events, filterEventsGo, hinstr, hopen, hst, hne, hparse, hclass, hcut, hc]
  · have hc : ¬(dt.hour < 19 ∨ (dt.hour = 19 ∧ dt.minute = 0 ∧ dt.second = 0 ∧
        dt.usecond = 0)) := fun h => hcut (hb.mpr h)
    constructor
    · simp [filter_events, filterEventsGo, hinstr, hopen, hst, hne, hparse, hclass, hcut, hc]
    · simp [filter_events, filterEventsGo, hinstr, hopen, hst, hne, hparse, hclass, hcut, hc]

/-- Witness for C4 at the two boundary inputs: 19:00:00 is rejected,
19:00:01 is kept. -/
theorem C4_weekday_evening_cutoff_witness :
    filter_events (fun _ => false) [entryBoundary1900] 525 = .ok [] ∧
    filter_events (fun _ => false) [entryAfter1900] 525 =
      .ok [⟨entryAfter1900.token, ⟨2025, 11, 14, 19, 0, 1, 0, some (-180)⟩⟩] := by
  constructor
  · exact (C4_weekday_evening_cutoff (fun _ => false) entryBoundary1900 525
      ("2025-11-14T19:00:00-03:00".toList) ⟨2025, 11, 14, 19, 0, 0, 0, some (-180)⟩
      rfl rfl rfl (by decide) (by decide) (by decide)).1.mpr (by decide)
  · exact (C4_weekday_evening_cutoff (fun _ => false) entryAfter1900 525
      ("2025-11-14T19:00:01-03:00".toList) ⟨2025, 11, 14, 19, 0, 1, 0, some (-180)⟩
      rfl rfl rfl (by decide) (by decide) (by decide)).2.mpr (by decide)

/-!  ## C6 — malformed vs. missing `start_time` -/

/-- C6 counterexample: an entry whose `start_time` key is present
with the (unparseable) empty-string value is silently skipped by
`filter_events` — no `ParseError` is raised — because the code's
falsiness test `if not start_raw` treats it like a missing field.  The
claim as stated (present-but-unparseable always raises) is therefore
false. -/
theorem C6_counterexample_empty_start_time_skipped :
    entryEmptyStart.start_time = some [] ∧
    fromisoformat [] = none ∧
    filter_events (fun _ => false) [entryEmptyStart] 525 = .ok [] := by decide

/-- C6 amended: for a matching open entry, a `start_time` that is
present, *non-empty* and not parseable raises `ParseError` with the
source's message; a missing (or empty, falsy) `start_time` is skipped
silently, producing no error and no output. -/
theorem C6_parse_error_amended :
    (∀ (isHol : Nat × Nat × Nat → Bool) (e : RawEntry) (id : Int) (raw : Str),
       e.instructor = some id → e.closed_at = none → e.start_time = some raw → raw ≠ [] →
       fromisoformat raw = none →
       filter_events isHol [e] id =
         .error (.parse ("Valor de start_time invalido: ".toList ++ raw))) ∧
    (∀ (isHol : Nat × Nat × Nat → Bool) (e : RawEntry) (id : Int),
       e.instructor = some id → e.closed_at = none → e.start_time = none →
       filter_events isHol [e] id = .ok []) := by
  constructor
  · intro isHol e id raw h1 h2 h3 h4 h5
    simp [filter_events, filterEventsGo, h1, h2, h3, h4, parse_start_time, h5]
  · intro isHol e id h1 h2 h3
    simp [filter_events, filterEventsGo, h1, h2, h3]

/-- Witness for the amended C6: the malformed entry raises, the
missing-field entry is skipped. -/
theorem C6_parse_error_amended_witness :
    filter_events (fun _ => false) [entryMalformed] 525 =
      .error (.parse ("Valor de start_time invalido: ".toList ++ "banana".toList)) ∧
    filter_events (fun _ => false) [entryMissingStart] 525 = .ok [] := by
  constructor
  · exact C6_parse_error_amended.1 (fun _ => false) entryMalformed 525 ("banana".toList)
      rfl rfl rfl (by decide) (by decide)
  · exact C6_parse_error_amended.2 (fun _ => false) entryMissingStart 525 rfl rfl rfl

/-!  ## C9 — the instructor label -/

/-- C9 counterexample: nickname `"Ana"` and full name
`"Mariana Silva"` are both present and differ case-insensitively, yet
the label is just `"Ana"`, not `"Mariana Silva (Ana)"` — the code tests
substring containment (`nickname.lower() not in name.lower()`), not
case-insensitive equality. -/
theorem C9_counterexample_substring_nickname :
    fieldStr spotAna.instructor_nickname ≠ [] ∧
    spotAna.instructor_name ≠ [] ∧
    strLower (fieldStr spotAna.instructor_nickname) ≠ strLower spotAna.instructor_name ∧
    build_instructor_label spotAna ≠
      spotAna.instructor_name ++ " (".toList ++
        fieldStr spotAna.instructor_nickname ++ ")".toList ∧
    build_instructor_label spotAna = "Ana".toList := by decide

/-- C9 amended: the label is the full name with the nickname
parenthesized exactly when both are present (non-empty) and the
lowercased nickname is *not a substring* of the lowercased full name;
otherwise it is the nickname when present, else the full name when
present, else the placeholder `"Instrutor"`. -/
theorem C9_instructor_label_amended (s : Spot) :
    (fieldStr s.instructor_nickname ≠ [] → s.instructor_name ≠ [] →
       strContains (strLower (fieldStr s.instructor_nickname))
           (strLower s.instructor_name) = false →
       build_instructor_label s =
         s.instructor_name ++ " (".toList ++ fieldStr s.instructor_nickname ++ ")".toList) ∧
    (fieldStr s.instructor_nickname ≠ [] →
       (s.instructor_name = [] ∨
        strContains (strLower (fieldStr s.instructor_nickname))
            (strLower s.instructor_name) = true) →
       build_instructor_label s = fieldStr s.instructor_nickname) ∧
    (fieldStr s.instructor_nickname = [] → s.instructor_name ≠ [] →
       build_instructor_label s = s.instructor_name) ∧
    (fieldStr s.instructor_nickname = [] → s.instructor_name = [] →
       build_instructor_label s = "Instrutor".toList) := by
  refine ⟨?_, ?_, ?_, ?_⟩
  · intro h1 h2 h3
    simp [build_instructor_label, h1, h2, h3]
  · intro h1 h2
    rcases h2 with h2 | h2 <;> simp [build_instructor_label, h1, h2]
  · intro h1 h2
    simp [build_instructor_label, h1, h2]
  · intro h1 h2
    simp [build_instructor_label, h1, h2]

/-- Witness for the amended C9 at `spotAna` (contained nickname ⇒ label
is the nickname). -/
theorem C9_instructor_label_amended_witness :
    build_instructor_label spotAna = fieldStr spotAna.instructor_nickname :=
  (C9_instructor_label_amended spotAna).2.1 (by decide) (Or.inr (by decide))

/-!  ## C1 — what `run_automation` returns -/

/-- C1: on the end-to-end scenario oracles, `run_automation` returns
the bare list of available-spot dicts (here exactly `[pipelineSpot]`)
and nothing else — the value carries no `started_at`, `finished_at` or
`elapsed_seconds` fields, while its in-repo caller
(`telegram_notification.main`, src/telegram_notification.py lines
388-395) dereferences `result.spots`, `result.elapsed_seconds`,
`result.started_at` and `result.finished_at` on it. -/
theorem C1_run_automation_returns_bare_spot_list :
    run_automation getPageScenario fetchDetailScenario (fun _ => false) false =
      (.ok [pipelineSpot], [.created, .closed]) := by decide

/-!  ## C8 — session lifecycle -/

/-- C8 counterexample: with no caller-supplied session and a failing
schedule fetch, the run creates the internal session but never closes it
(the trace ends at `created`); the claim that the pipeline closes its
internal session on every exit path is false — there is no
`try`/`finally` around the stages in `run_automation`. -/
theorem C8_counterexample_session_not_closed_on_failure :
    run_automation (fun _ => .fail) fetchDetailScenario (fun _ => false) false =
      (.error .transport, [.created]) ∧
    SessionAction.closed ∉ [SessionAction.created] := by decide

/-- C8 amended: a caller-supplied session is never created/closed
by the run on any path; an internally created session is closed exactly
on the success path, and is left unclosed when any stage raises. -/
theorem C8_session_lifecycle_amended (getPage : Nat → PageResult)
    (fetchDetail : Str → Except AutoErr EventDetail) (isHol : Nat × Nat × Nat → Bool) :
    ((run_automation getPage fetchDetail isHol true).2 = []) ∧
    (∀ spots, (run_automation getPage fetchDetail isHol false).1 = .ok spots →
       (run_automation getPage fetchDetail isHol false).2 =
         [SessionAction.created, SessionAction.closed]) ∧
    (∀ e, (run_automation getPage fetchDetail isHol false).1 = .error e →
       (run_automation getPage fetchDetail isHol false).2 = [SessionAction.created]) := by
  refine ⟨?_, ?_, ?_⟩
  · unfold run_automation
    cases runPipeline getPage fetchDetail isHol <;> simp
  · intro spots hsp
    unfold run_automation at hsp ⊢
    cases hp : runPipeline getPage fetchDetail isHol <;> simp_all
  · intro e hsp
    unfold run_automation at hsp ⊢
    cases hp : runPipeline getPage fetchDetail isHol <;> simp_all

/-- Witness for the amended C8: the caller-supplied case on the scenario
oracles, the success case, and the failing-fetch case. -/
theorem C8_session_lifecycle_amended_witness :
    ((run_automation getPageScenario fetchDetailScenario (fun _ => false) true).2 = []) ∧
    ((run_automation getPageScenario fetchDetailScenario (fun _ => false) false).2 =
       [SessionAction.created, SessionAction.closed]) ∧
    ((run_automation (fun _ => .fail) fetchDetailScenario (fun _ => false) false).2 =
       [SessionAction.created]) := by
  refine ⟨(C8_session_lifecycle_amended getPageScenario fetchDetailScenario
      (fun _ => false)).1, ?_, ?_⟩
  · exact (C8_session_lifecycle_amended getPageScenario fetchDetailScenario
      (fun _ => false)).2.1 [pipelineSpot] (by decide)
  · exact (C8_session_lifecycle_amended (fun _ => .fail) fetchDetailScenario
      (fun _ => false)).2.2 .transport (by decide)

/-!  ## Splitter infrastructure (C2 and C10) -/

/-- The `joinLines` on a list with a nonempty tail. -/
theorem joinLines_cons (l : Str) (ls : List Str) (h : ls ≠ []) :
    joinLines (l :: ls) = l ++ '\n' :: joinLines ls := by
  cases ls with
  | nil => exact absurd rfl h
  | cons m ms => rfl

/-- Appending one line to a nonempty block adds one separator. -/
theorem joinLines_append_singleton (ls : List Str) (l : Str) (h : ls ≠ []) :
    joinLines (ls ++ [l]) = joinLines ls ++ '\n' :: l := by
  induction ls with
  | nil => exact absurd rfl h
  | cons x xs ih =>
    cases xs with
    | nil => rfl
    | cons y ys =>
      rw [List.cons_append, joinLines_cons x ((y :: ys) ++ [l]) (by simp),
          joinLines_cons x (y :: ys) (by simp), ih (by simp)]
      simp

/-- Length bookkeeping for the previous lemma — exactly the
`current_len += 1 + line_len` update of `_split_message`. -/
theorem length_joinLines_append_singleton (ls : List Str) (l : Str) (h : ls ≠ []) :
    (joinLines (ls ++ [l])).length = (joinLines ls).length + 1 + l.length := by
  rw [joinLines_append_singleton ls l h]
  simp [List.length_append]
  omega

/-- The `joinLines` distributes over the concatenation of nonempty blocks. -/
theorem joinLines_append (ls ms : List Str) (h1 : ls ≠ []) (h2 : ms ≠ []) :
    joinLines (ls ++ ms) = joinLines ls ++ '\n' :: joinLines ms := by
  induction ls with
  | nil => exact absurd rfl h1
  | cons x xs ih =>
    cases xs with
    | nil => simpa using joinLines_cons x ms h2
    | cons y ys =>
      rw [List.cons_append, joinLines_cons x ((y :: ys) ++ ms) (by simp),
          ih (by simp), joinLines_cons x (y :: ys) (by simp)]
      simp

/-- A concatenation of nonempty blocks is nonempty. -/
theorem flatten_ne_nil_of_blocks (bs : List (List Str)) (hbs : bs ≠ [])
    (hne : ∀ b ∈ bs, b ≠ []) : bs.flatten ≠ [] := by
  cases bs with
  | nil => exact absurd rfl hbs
  | cons b rest =>
    have hb := hne b (by simp)
    cases b with
    | nil => exact absurd rfl hb
    | cons c cs => simp

/-- Joining per-block joins equals joining the flattened block list —
the algebraic heart of the chunk reconstruction. -/
theorem joinLines_blocks (bs : List (List Str)) (hne : ∀ b ∈ bs, b ≠ []) :
    joinLines (bs.map joinLines) = joinLines bs.flatten := by
  induction bs with
  | nil => rfl
  | cons b rest ih =>
    by_cases hrest : rest = []
    · subst hrest
      simp [joinLines]
    · have hb : b ≠ [] := hne b (by simp)
      have hrestne : ∀ x ∈ rest, x ≠ [] := fun x hx => hne x (by simp [hx])
      have hmap : rest.map joinLines ≠ [] := by simpa using hrest
      rw [List.map_cons, joinLines_cons _ _ hmap, ih hrestne, List.flatten_cons,
          joinLines_append b rest.flatten hb (flatten_ne_nil_of_blocks rest hrest hrestne)]

/-- The `sliceLine` of the empty line is empty. -/
theorem sliceLine_nil (limit : Nat) : sliceLine limit [] = [] := by
  unfold sliceLine
  have h0 : (([] : Str).length + limit - 1) / limit = 0 := by
    cases limit with
    | zero => simp
    | succ n => simp [Nat.div_eq_of_lt (Nat.lt_succ_self n)]
  rw [h0]
  rfl

/-- The chunk count of the Python `range(0, n, limit)` loop satisfies
the peel-one-chunk recurrence. -/
theorem sliceCount_succ (limit n : Nat) (hlim : 1 ≤ limit) (hn : 1 ≤ n) :
    (n + limit - 1) / limit = ((n - limit) + limit - 1) / limit + 1 := by
  by_cases hc : n ≤ limit
  · have e1 : n + limit - 1 = (n - 1) + limit := by omega
    have e2 : n - limit = 0 := by omega
    rw [e1, Nat.add_div_right _ (by omega : 0 < limit),
        Nat.div_eq_of_lt (by omega : n - 1 < limit), e2]
    have e3 : 0 + limit - 1 = limit - 1 := by omega
    rw [e3, Nat.div_eq_of_lt (by omega : limit - 1 < limit)]
  · have e1 : n + limit - 1 = ((n - limit) + limit - 1) + limit := by omega
    rw [e1, Nat.add_div_right _ (by omega : 0 < limit)]

/-- Peeling the first chunk off `sliceLine`. -/
theorem sliceLine_cons_eq (limit : Nat) (h : 1 ≤ limit) (l : Str) (hl : l ≠ []) :
    sliceLine limit l = l.take limit :: sliceLine limit (l.drop limit) := by
  have hn : 1 ≤ l.length := by
    cases l with
    | nil => exact absurd rfl hl
    | cons c cs => simp
  unfold sliceLine
  rw [List.length_drop, sliceCount_succ limit l.length h hn, List.range_succ_eq_map]
  simp only [List.map_cons, List.map_map, Nat.zero_mul, List.drop_zero]
  congr 1
  apply List.map_congr_left
  intro i _
  simp only [Function.comp_apply, List.drop_drop]
  congr 2
  rw [Nat.succ_mul]
  omega

/-- Hard-sliced chunks concatenate back to the original line. -/
theorem sliceLine_flatten_aux (limit : Nat) (h : 1 ≤ limit) :
    ∀ (n : Nat) (l : Str), l.length ≤ n → (sliceLine limit l).flatten = l := by
  intro n
  induction n with
  | zero =>
    intro l hl
    have hnil : l = [] := List.length_eq_zero.mp (Nat.le_zero.mp hl)
    subst hnil
    simp [sliceLine_nil]
  | succ n ih =>
    intro l hl
    by_cases hnil : l = []
    · subst hnil
      simp [sliceLine_nil]
    · rw [sliceLine_cons_eq limit h l hnil, List.flatten_cons,
          ih (l.drop limit) (by rw [List.length_drop]; omega)]
      exact List.take_append_drop limit l

/-- Hard-sliced chunks concatenate back to the original line. -/
theorem sliceLine_flatten (limit : Nat) (h : 1 ≤ limit) (l : Str) :
    (sliceLine limit l).flatten = l :=
  sliceLine_flatten_aux limit h l.length l le_rfl

/-- Every hard-sliced chunk fits within the limit. -/
theorem sliceLine_chunk_le (limit : Nat) (l : Str) :
    ∀ c ∈ sliceLine limit l, c.length ≤ limit := by
  intro c hc
  unfold sliceLine at hc
  simp only [List.mem_map, List.mem_range] at hc
  obtain ⟨i, _, rfl⟩ := hc
  exact List.length_take_le limit _

/-- A nonempty line hard-slices to at least one chunk. -/
theorem sliceLine_ne_nil (limit : Nat) (h : 1 ≤ limit) (l : Str) (hl : l ≠ []) :
    sliceLine limit l ≠ [] := by
  rw [sliceLine_cons_eq limit h l hl]
  simp


/-- The `splitStep`, oversized-line case. -/
theorem splitStep_big (limit : Nat) (st : SplitState) (line : Str)
    (h : limit < line.length) :
    splitStep limit st line =
      ⟨(if st.currentLines = [] then st.chunks
        else st.chunks ++ [joinLines st.currentLines]) ++ sliceLine limit line, [], 0⟩ := by
  simp [splitStep, h]

/-- The `splitStep`, close-the-current-chunk case. -/
theorem splitStep_close (limit : Nat) (st : SplitState) (line : Str)
    (h1 : ¬limit < line.length) (h2 : st.currentLines ≠ [])
    (h3 : limit < st.currentLen + (line.length + 1)) :
    splitStep limit st line =
      ⟨st.chunks ++ [joinLines st.currentLines], [line], line.length⟩ := by
  simp [splitStep, h1, h2, h3]

/-- The `splitStep`, first line of a fresh chunk. -/
theorem splitStep_append_nil (limit : Nat) (st : SplitState) (line : Str)
    (h1 : ¬limit < line.length) (h2 : st.currentLines = []) :
    splitStep limit st line = ⟨st.chunks, [line], line.length⟩ := by
  simp [splitStep, h1, h2]

/-- The `splitStep`, pack-into-the-current-chunk case. -/
theorem splitStep_append_fit (limit : Nat) (st : SplitState) (line : Str)
    (h1 : ¬limit < line.length) (h2 : st.currentLines ≠ [])
    (h3 : ¬limit < st.currentLen + (line.length + 1)) :
    splitStep limit st line =
      ⟨st.chunks, st.currentLines ++ [line], st.currentLen + 1 + line.length⟩ := by
  simp [splitStep, h1, h2, h3]

/-- One splitter iteration preserves the state invariant. -/
theorem splitStep_inv (limit : Nat) (st : SplitState) (line : Str)
    (hst : stInv limit st) : stInv limit (splitStep limit st line) := by
  obtain ⟨hchunks, hlen, hcur⟩ := hst
  by_cases hbig : limit < line.length
  · rw [splitStep_big limit st line hbig]
    refine ⟨?_, by simp [joinLines], by simp⟩
    intro c hc
    simp only [List.mem_append] at hc
    rcases hc with hc | hc
    · by_cases hcl : st.currentLines = []
      · rw [if_pos hcl] at hc
        exact hchunks c hc
      · rw [if_neg hcl] at hc
        simp only [List.mem_append, List.mem_singleton] at hc
        rcases hc with hc | hc
        · exact hchunks c hc
        · rw [hc, ← hlen]
          exact hcur hcl
    · exact sliceLine_chunk_le limit line c hc
  · by_cases hcl : st.currentLines = []
    · rw [splitStep_append_nil limit st line hbig hcl]
      exact ⟨hchunks, by simp [joinLines], fun _ => by simp; omega⟩
    · by_cases hfit : limit < st.currentLen + (line.length + 1)
      · rw [splitStep_close limit st line hbig hcl hfit]
        refine ⟨?_, by simp [joinLines], fun _ => by simp; omega⟩
        intro c hc
        simp only [List.mem_append, List.mem_singleton] at hc
        rcases hc with hc | hc
        · exact hchunks c hc
        · rw [hc, ← hlen]
          exact hcur hcl
      · rw [splitStep_append_fit limit st line hbig hcl hfit]
        refine ⟨hchunks, ?_, fun _ => by simp; omega⟩
        rw [length_joinLines_append_singleton st.currentLines line hcl, hlen]

/-- The whole splitter loop preserves the state invariant. -/
theorem foldl_splitStep_inv (limit : Nat) (lines : List Str) (st : SplitState)
    (hst : stInv limit st) : stInv limit (lines.foldl (splitStep limit) st) := by
  induction lines generalizing st with
  | nil => exact hst
  | cons l ls ih => exact ih _ (splitStep_inv limit st l hst)

/-- Every iteration leaves either a finished chunk or a chunk under
construction. -/
theorem splitStep_productive (limit : Nat) (h : 1 ≤ limit) (st : SplitState) (line : Str) :
    (splitStep limit st line).chunks ≠ [] ∨ (splitStep limit st line).currentLines ≠ [] := by
  by_cases hbig : limit < line.length
  · left
    rw [splitStep_big limit st line hbig]
    have hline : line ≠ [] := by
      intro hn
      rw [hn] at hbig
      simp at hbig
    have := sliceLine_ne_nil limit h line hline
    simp only []
    intro habs
    rw [List.append_eq_nil] at habs
    exact this habs.2
  · by_cases hcl : st.currentLines = []
    · right
      rw [splitStep_append_nil limit st line hbig hcl]
      simp
    · by_cases hfit : limit < st.currentLen + (line.length + 1)
      · right
        rw [splitStep_close limit st line hbig hcl hfit]
        simp
      · right
        rw [splitStep_append_fit limit st line hbig hcl hfit]
        simp

/-- After at least one iteration the loop state is productive. -/
theorem foldl_splitStep_productive (limit : Nat) (h : 1 ≤ limit) (lines : List Str)
    (st : SplitState) (hlines : lines ≠ []) :
    (lines.foldl (splitStep limit) st).chunks ≠ [] ∨
    (lines.foldl (splitStep limit) st).currentLines ≠ [] := by
  induction lines generalizing st with
  | nil => exact absurd rfl hlines
  | cons l ls ih =>
    by_cases hls : ls = []
    · subst hls
      simpa using splitStep_productive limit h st l
    · simpa using ih (splitStep limit st l) hls

set_option maxHeartbeats 1000000 in
/-- The `splitlines` of a nonempty string is nonempty (worker version). -/
theorem splitlinesGo_ne_nil (s acc : Str) : (s ≠ [] ∨ acc ≠ []) → splitlinesGo s acc ≠ [] := by
  induction s, acc using splitlinesGo.induct <;> intro hOr <;> simp_all [splitlinesGo]

/-- The `splitlines` of a nonempty string is nonempty. -/
theorem splitlines_ne_nil (s : Str) (h : s ≠ []) : splitlines s ≠ [] :=
  splitlinesGo_ne_nil s [] (Or.inl h)

/-- C10: for every message and every limit ≥ 1 the splitter returns
a non-empty chunk list whose members all fit within the limit; with the
Telegram limit this means `send_telegram_message` performs at least one
delivery, so `responses[-1]` is well-defined. -/
theorem C10_split_message_safe (message : Str) (limit : Nat) (h : 1 ≤ limit) :
    (split_message message limit ≠ [] ∧
     ∀ c ∈ split_message message limit, c.length ≤ limit) ∧
    (∀ (post : Str → Except Unit Str) (rs : List Str),
       sendChunksGo post (split_message message TELEGRAM_MESSAGE_LIMIT) = .ok rs →
       1 ≤ rs.length) := by
  have main : ∀ (lim : Nat), 1 ≤ lim →
      split_message message lim ≠ [] ∧ ∀ c ∈ split_message message lim, c.length ≤ lim := by
    intro lim hlim
    unfold split_message
    by_cases hshort : message.length ≤ lim
    · rw [if_pos hshort]
      refine ⟨by simp, ?_⟩
      intro c hc
      simp only [List.mem_singleton] at hc
      rw [hc]
      exact hshort
    · rw [if_neg hshort]
      have hmsg : message ≠ [] := by
        intro hn
        rw [hn] at hshort
        simp at hshort
      have hlines := splitlines_ne_nil message hmsg
      have hinv := foldl_splitStep_inv lim (splitlines message) ⟨[], [], 0⟩
        ⟨by intro c hc; simp at hc, by simp [joinLines], by simp⟩
      have hprod := foldl_splitStep_productive lim hlim (splitlines message)
        ⟨[], [], 0⟩ hlines
      set final := (splitlines message).foldl (splitStep lim) ⟨[], [], 0⟩ with hfinal
      obtain ⟨hchunks, hlen, hcur⟩ := hinv
      constructor
      · intro habs
        rw [List.append_eq_nil] at habs
        rcases hprod with hp | hp
        · exact hp habs.1
        · rw [if_neg hp] at habs
          simp at habs
      · intro c hc
        simp only [List.mem_append] at hc
        rcases hc with hc | hc
        · exact hchunks c hc
        · by_cases hcl : final.currentLines = []
          · rw [if_pos hcl] at hc
            simp at hc
          · rw [if_neg hcl] at hc
            simp only [List.mem_singleton] at hc
            rw [hc, ← hlen]
            exact hcur hcl
  refine ⟨main limit h, ?_⟩
  intro post rs hsend
  have hchunks : split_message message TELEGRAM_MESSAGE_LIMIT ≠ [] :=
    (main TELEGRAM_MESSAGE_LIMIT (by norm_num [TELEGRAM_MESSAGE_LIMIT])).1
  cases hsp : split_message message TELEGRAM_MESSAGE_LIMIT with
  | nil => exact absurd hsp hchunks
  | cons c cs =>
    rw [hsp] at hsend
    unfold sendChunksGo at hsend
    cases hpost : post c with
    | error e =>
      rw [hpost] at hsend
      simp at hsend
    | ok r =>
      rw [hpost] at hsend
      cases htail : sendChunksGo post cs with
      | error e =>
        rw [htail] at hsend
        simp at hsend
      | ok rtail =>
        rw [htail] at hsend
        simp only [bind, Except.bind, pure, Except.pure, Except.ok.injEq] at hsend
        rw [← hsend]
        simp

/-- Witness for C10 at a concrete oversized message and small limit. -/
theorem C10_split_message_safe_witness :
    (split_message ("ab\ncd\nef".toList) 5 ≠ [] ∧
     ∀ c ∈ split_message ("ab\ncd\nef".toList) 5, c.length ≤ 5) ∧
    (∀ (post : Str → Except Unit Str) (rs : List Str),
       sendChunksGo post (split_message ("ab\ncd\nef".toList) TELEGRAM_MESSAGE_LIMIT) = .ok rs →
       1 ≤ rs.length) :=
  C10_split_message_safe ("ab\ncd\nef".toList) 5 (by omega)

/-- One in-limit iteration extends the block decomposition of the
chunks: every finished chunk is the newline-join of a nonempty block of
consecutive lines, and blocks-plus-current always concatenate to the
lines consumed so far. -/
theorem splitStep_blocks (limit : Nat) (st : SplitState) (line : Str)
    (hline : line.length ≤ limit) (bs : List (List Str))
    (hchunks : st.chunks = bs.map joinLines) (hbs : ∀ b ∈ bs, b ≠ []) :
    ∃ bs' : List (List Str), (splitStep limit st line).chunks = bs'.map joinLines ∧ (∀ b ∈ bs', b ≠ []) ∧
      bs'.flatten ++ (splitStep limit st line).currentLines =
        bs.flatten ++ st.currentLines ++ [line] := by
  have hbig : ¬limit < line.length := Nat.not_lt.mpr hline
  by_cases hcl : st.currentLines = []
  · refine ⟨bs, ?_, hbs, ?_⟩
    · rw [splitStep_append_nil limit st line hbig hcl]
      exact hchunks
    · rw [splitStep_append_nil limit st line hbig hcl]
      simp [hcl]
  · by_cases hfit : limit < st.currentLen + (line.length + 1)
    · refine ⟨bs ++ [st.currentLines], ?_, ?_, ?_⟩
      · rw [splitStep_close limit st line hbig hcl hfit, hchunks]
        simp
      · intro b hb
        rcases List.mem_append.mp hb with hb | hb
        · exact hbs b hb
        · rw [List.mem_singleton] at hb
          subst hb
          exact hcl
      · rw [splitStep_close limit st line hbig hcl hfit]
        simp [List.flatten_append, List.append_assoc]
    · refine ⟨bs, ?_, hbs, ?_⟩
      · rw [splitStep_append_fit limit st line hbig hcl hfit]
        exact hchunks
      · rw [splitStep_append_fit limit st line hbig hcl hfit]
        simp [List.append_assoc]

/-- The block decomposition for the whole loop. -/
theorem foldl_splitStep_blocks (limit : Nat) (lines : List Str)
    (hlines : ∀ l ∈ lines, l.length ≤ limit) (st : SplitState) (bs : List (List Str))
    (hchunks : st.chunks = bs.map joinLines) (hbs : ∀ b ∈ bs, b ≠ []) :
    ∃ bs' : List (List Str), (lines.foldl (splitStep limit) st).chunks = bs'.map joinLines ∧
      (∀ b ∈ bs', b ≠ []) ∧
      bs'.flatten ++ (lines.foldl (splitStep limit) st).currentLines =
        bs.flatten ++ st.currentLines ++ lines := by
  induction lines generalizing st bs with
  | nil => exact ⟨bs, hchunks, hbs, by simp⟩
  | cons l ls ih =>
    obtain ⟨bs1, h1, h2, h3⟩ :=
      splitStep_blocks limit st l (hlines l (by simp)) bs hchunks hbs
    obtain ⟨bs', h1', h2', h3'⟩ :=
      ih (fun x hx => hlines x (by simp [hx])) (splitStep limit st l) bs1 h1 h2
    refine ⟨bs', by simpa using h1', h2', ?_⟩
    rw [List.foldl_cons, h3', h3]
    simp [List.append_assoc]

/-- C2 amended: rejoining the chunks with newline separators
reconstructs the original message exactly (i) for every message within
the limit, and (ii) for every longer message whose `splitlines`
decomposition both fits line-wise within the limit and newline-rejoins
to the message (i.e. all line breaks are `\n` and there is no trailing
break).  For a single line longer than the limit the chunks are obtained
by hard slicing, and it is their *plain concatenation* — not the
newline-rejoin — that reconstructs the message. -/
theorem C2_split_rejoin_amended :
    (∀ (message : Str) (limit : Nat),
       (message.length ≤ limit ∨
        ((∀ l ∈ splitlines message, l.length ≤ limit) ∧
         joinLines (splitlines message) = message)) →
       joinLines (split_message message limit) = message) ∧
    (∀ (message : Str) (limit : Nat), 1 ≤ limit → limit < message.length →
       splitlines message = [message] →
       (split_message message limit).flatten = message) := by
  constructor
  · intro message limit hyp
    by_cases hshort : message.length ≤ limit
    · unfold split_message
      rw [if_pos hshort]
      rfl
    · rcases hyp with hyp | ⟨hlines, hjoin⟩
      · exact absurd hyp hshort
      · unfold split_message
        rw [if_neg hshort]
        dsimp only
        obtain ⟨bs', h1, h2, h3⟩ := foldl_splitStep_blocks limit (splitlines message)
          hlines ⟨[], [], 0⟩ [] rfl (by simp)
        set final := (splitlines message).foldl (splitStep limit) ⟨[], [], 0⟩ with hfin
        by_cases hcl : final.currentLines = []
        · rw [if_pos hcl]
          simp only [List.append_nil]
          rw [h1, joinLines_blocks bs' h2]
          rw [hcl, List.append_nil] at h3
          simp only [List.flatten_nil, List.nil_append] at h3
          rw [h3, hjoin]
        · rw [if_neg hcl]
          have hmapall : final.chunks ++ [joinLines final.currentLines] =
              (bs' ++ [final.currentLines]).map joinLines := by
            rw [h1]
            simp
          have hallne : ∀ b ∈ bs' ++ [final.currentLines], b ≠ [] := by
            intro b hb
            rcases List.mem_append.mp hb with hb | hb
            · exact h2 b hb
            · rw [List.mem_singleton] at hb
              subst hb
              exact hcl
          rw [hmapall, joinLines_blocks (bs' ++ [final.currentLines]) hallne,
              List.flatten_append]
          simp only [List.flatten_cons, List.flatten_nil, List.append_nil]
          simp only [List.flatten_nil, List.nil_append] at h3
          rw [h3, hjoin]
  · intro message limit h1 h2 hsplit
    unfold split_message
    rw [if_neg (Nat.not_le.mpr h2), hsplit]
    simp only [List.foldl_cons, List.foldl_nil]
    rw [splitStep_big limit ⟨[], [], 0⟩ message h2]
    simp only [if_true, List.nil_append, List.append_nil]
    exact sliceLine_flatten limit h1 message

/-- Witness for the amended C2 at small concrete messages: a two-line
message over the limit (line-boundary split) and a single long line
(hard slice). -/
theorem C2_split_rejoin_amended_witness :
    joinLines (split_message ("ab\ncd".toList) 3) = "ab\ncd".toList ∧
    (split_message ("abcd".toList) 3).flatten = "abcd".toList := by
  constructor
  · exact C2_split_rejoin_amended.1 ("ab\ncd".toList) 3 (Or.inr (by decide))
  · exact C2_split_rejoin_amended.2 ("abcd".toList) 3 (by omega) (by decide) (by decide)

/-- The `splitlines` worker on a terminator-free string: one single line. -/
theorem splitlinesGo_no_break (s acc : Str) (hs : ∀ c ∈ s, isLineBreak c = false) :
    (s ≠ [] ∨ acc ≠ []) → splitlinesGo s acc = [acc.reverse ++ s] := by
  induction s, acc using splitlinesGo.induct with
  | case1 =>
    intro hOr
    rcases hOr with h | h
    · exact absurd rfl h
    · exact absurd rfl h
  | case2 acc hacc =>
    intro _
    simp [splitlinesGo, hacc]
  | case3 rest acc ih =>
    intro _
    have := hs '\r' (by simp)
    simp [isLineBreak] at this
  | case4 ch rest acc hne hlb ih =>
    intro _
    have := hs ch (by simp)
    rw [this] at hlb
    exact absurd hlb (by simp)
  | case5 ch rest acc hne hlb ih =>
    intro _
    have hrest : ∀ c ∈ rest, isLineBreak c = false := fun c hc => hs c (by simp [hc])
    have hgo : splitlinesGo (ch :: rest) acc = splitlinesGo rest (ch :: acc) := by
      simp [splitlinesGo, hlb]
    rw [hgo, ih hrest (Or.inr (by simp))]
    simp

/-- The `splitlines` of a nonempty terminator-free string is that line. -/
theorem splitlines_no_break (s : Str) (hs : ∀ c ∈ s, isLineBreak c = false) (h : s ≠ []) :
    splitlines s = [s] := by
  unfold splitlines
  rw [splitlinesGo_no_break s [] hs (Or.inl h)]
  rfl

/-- Projection of a literal splitter state. -/
theorem st_chunks (a b : List Str) (c : Nat) : (⟨a, b, c⟩ : SplitState).chunks = a := rfl

/-- Projection of a literal splitter state. -/
theorem st_cur (a b : List Str) (c : Nat) : (⟨a, b, c⟩ : SplitState).currentLines = b := rfl

/-- Length of the counterexample message. -/
theorem replicate4097_len : (List.replicate 4097 'a').length = 4097 :=
  List.length_replicate 4097 'a'

/-- The counterexample message is nonempty. -/
theorem replicate4097_ne_nil : List.replicate 4097 'a' ≠ [] :=
  List.length_pos.mp (by rw [replicate4097_len]; omega)

/-- The counterexample message contains no line terminators. -/
theorem replicate4097_break_free : ∀ c ∈ List.replicate 4097 'a', isLineBreak c = false := by
  intro c hc
  rw [List.eq_of_mem_replicate hc]
  decide

/-- The `splitlines` sees the counterexample message as one long line. -/
theorem splitlines_replicate4097 :
    splitlines (List.replicate 4097 'a') = [List.replicate 4097 'a'] :=
  splitlines_no_break _ replicate4097_break_free replicate4097_ne_nil

/-- Hard-slicing the 4097-character line at 4096 yields two chunks. -/
theorem sliceLine_replicate4097 : sliceLine 4096 (List.replicate 4097 'a') =
    [List.replicate 4096 'a', ['a']] := by
  have ht : (List.replicate 4097 'a').take 4096 = List.replicate 4096 'a' := by
    rw [List.take_replicate, show min 4096 4097 = 4096 from by omega]
  have hd : (List.replicate 4097 'a').drop 4096 = ['a'] := by
    rw [List.drop_replicate, show (4097 : Nat) - 4096 = 1 from by omega]
    rfl
  have htake1 : (['a'] : Str).take 4096 = ['a'] :=
    List.take_of_length_le (by rw [List.length_cons, List.length_nil]; omega)
  have hdrop1 : (['a'] : Str).drop 4096 = [] :=
    List.drop_eq_nil_of_le (by rw [List.length_cons, List.length_nil]; omega)
  rw [sliceLine_cons_eq 4096 (by omega) _ replicate4097_ne_nil, ht, hd,
      sliceLine_cons_eq 4096 (by omega) ['a'] (by intro h; cases h),
      htake1, hdrop1, sliceLine_nil]

/-- The splitter's chunks on the counterexample message. -/
theorem split_message_replicate4097 :
    split_message (List.replicate 4097 'a') TELEGRAM_MESSAGE_LIMIT =
      [List.replicate 4096 'a', ['a']] := by
  have h1 : List.foldl (splitStep 4096) ⟨[], [], 0⟩ [List.replicate 4097 'a'] =
      splitStep 4096 ⟨[], [], 0⟩ (List.replicate 4097 'a') := by
    rw [List.foldl_cons, List.foldl_nil]
  unfold split_message
  rw [if_neg (by rw [replicate4097_len]; decide)]
  dsimp only
  rw [show TELEGRAM_MESSAGE_LIMIT = 4096 from rfl, splitlines_replicate4097, h1,
      splitStep_big 4096 ⟨[], [], 0⟩ (List.replicate 4097 'a')
        (by rw [replicate4097_len]; omega)]
  simp only [st_chunks, st_cur]
  simp only [if_true, List.nil_append, List.append_nil]
  exact sliceLine_replicate4097

/-- C2 counterexample: the message of 4097 copies of `a` exceeds the
4096-character limit and is hard-sliced; rejoining the resulting chunks
with newline separators does *not* reconstruct it (a newline is inserted
inside the line), refuting the claim's single-long-line clause. -/
theorem C2_counterexample_hard_slice_rejoin :
    TELEGRAM_MESSAGE_LIMIT < (List.replicate 4097 'a').length ∧
    joinLines (split_message (List.replicate 4097 'a') TELEGRAM_MESSAGE_LIMIT) ≠
      List.replicate 4097 'a' := by
  refine ⟨by rw [replicate4097_len]; decide, ?_⟩
  rw [split_message_replicate4097]
  intro habs
  have hmem : '\n' ∈ joinLines [List.replicate 4096 'a', ['a']] := by
    rw [joinLines_cons _ _ (by intro h; cases h)]
    exact List.mem_append_right _ (List.mem_cons_self '\n' ['a'])
  rw [habs] at hmem
  exact absurd (List.eq_of_mem_replicate hmem) (by decide)

/-!  ## C7 — the filter invariant -/

/-- On success, the filter loop computes `filterMap keepEntry`. -/
theorem filterEventsGo_eq_filterMap (isHol : Nat × Nat × Nat → Bool) (id : Int)
    (entries : List RawEntry) (out : List ScheduleEvent)
    (h : filterEventsGo isHol id entries = .ok out) :
    out = entries.filterMap (keepEntry isHol id) := by
  induction entries generalizing out with
  | nil =>
    simp only [filterEventsGo, Except.ok.injEq] at h
    simp [← h]
  | cons e rest ih =>
    by_cases hinstr : e.instructor = some id
    · simp only [filterEventsGo, keepEntry, hinstr, ne_eq, not_true_eq_false,
        if_false, List.filterMap_cons] at h ⊢
      cases hca : e.closed_at with
      | some t =>
        simp only [hca, Option.isSome_some, if_true] at h ⊢
        exact ih out h
      | none =>
        simp only [hca, Option.isSome_none, Bool.false_eq_true, if_false] at h ⊢
        cases hst : e.start_time with
        | none =>
          simp only [hst] at h ⊢
          exact ih out h
        | some raw =>
          simp only [hst] at h ⊢
          by_cases hraw : raw = []
          · simp only [hraw, if_true, if_pos] at h ⊢
            exact ih out h
          · simp only [hraw, if_neg, if_false] at h ⊢
            cases hparse : parse_start_time raw with
            | error err =>
              rw [hparse] at h
              exact Except.noConfusion h
            | ok dt =>
              simp only [hparse] at h ⊢
              by_cases hrule : classify_event_day isHol dt = "dia_de_semana".toList ∧
                  timeAtMost19 dt = true
              · simp only [hrule, and_self, if_true, if_pos] at h ⊢
                exact ih out h
              · simp only [hrule, if_neg, if_false] at h ⊢
                cases hrest : filterEventsGo isHol id rest with
                | error err =>
                  rw [hrest] at h
                  simp only [bind, Except.bind] at h
                  exact Except.noConfusion h
                | ok tail =>
                  rw [hrest] at h
                  simp only [bind, Except.bind, pure, Except.pure, Except.ok.injEq] at h
                  rw [← h, ih tail hrest]
    · simp only [filterEventsGo, keepEntry, hinstr, ne_eq, not_false_eq_true, if_true,
        List.filterMap_cons] at h ⊢
      exact ih out h

/-- C7: when `filter_events` succeeds, its output is exactly the
order-preserving `filterMap` of the per-entry rule over the input, and
every emitted `ScheduleEvent` comes from an entry matching the
instructor id, open (`closed_at` null), with a parseable `start_time`,
and satisfying the day-type rule (weekday timestamps only when strictly
after the evening cutoff; holiday/weekend timestamps unrestricted). -/
theorem C7_filter_events_invariant (isHol : Nat × Nat × Nat → Bool) (id : Int)
    (entries : List RawEntry) (out : List ScheduleEvent)
    (h : filter_events isHol entries id = .ok out) :
    out = entries.filterMap (keepEntry isHol id) ∧
    ∀ ev ∈ out, ∃ e ∈ entries,
      e.instructor = some id ∧ e.closed_at = none ∧
      ∃ raw, e.start_time = some raw ∧ parse_start_time raw = .ok ev.start_time ∧
        ev.token = e.token ∧
        (classify_event_day isHol ev.start_time = "dia_de_semana".toList →
          timeAtMost19 ev.start_time = false) := by
  have h1 := filterEventsGo_eq_filterMap isHol id entries out h
  refine ⟨h1, ?_⟩
  intro ev hev
  rw [h1, List.mem_filterMap] at hev
  obtain ⟨e, he, hkeep⟩ := hev
  refine ⟨e, he, ?_⟩
  by_cases hinstr : e.instructor = some id
  · rw [keepEntry, if_neg (by simp [hinstr])] at hkeep
    cases hca : e.closed_at with
    | some t =>
      rw [hca] at hkeep
      simp at hkeep
    | none =>
      rw [hca] at hkeep
      simp only [Option.isSome_none, Bool.false_eq_true, if_false] at hkeep
      cases hst : e.start_time with
      | none =>
        rw [hst] at hkeep
        exact Option.noConfusion hkeep
      | some raw =>
        rw [hst] at hkeep
        simp only [] at hkeep
        by_cases hraw : raw = []
        · rw [if_pos hraw] at hkeep
          exact Option.noConfusion hkeep
        · rw [if_neg hraw] at hkeep
          cases hparse : parse_start_time raw with
          | error err =>
            rw [hparse] at hkeep
            simp only [] at hkeep
            exact Option.noConfusion hkeep
          | ok dt =>
            rw [hparse] at hkeep
            simp only [] at hkeep
            by_cases hrule : classify_event_day isHol dt = "dia_de_semana".toList ∧
                timeAtMost19 dt = true
            · rw [if_pos hrule] at hkeep
              exact Option.noConfusion hkeep
            · rw [if_neg hrule] at hkeep
              have hev2 : ev = ⟨e.token, dt⟩ := by
                injection hkeep with h2
                exact h2.symm
              subst hev2
              refine ⟨hinstr, rfl, raw, rfl, hparse, rfl, ?_⟩
              intro hcls
              by_contra hT
              rw [Bool.not_eq_false] at hT
              exact hrule ⟨hcls, hT⟩
  · rw [keepEntry, if_pos (by simpa using hinstr)] at hkeep
    exact Option.noConfusion hkeep

/-- Witness for C7 on a mixed concrete schedule: the Friday entry
survives, the non-matching and boundary entries are dropped. -/
theorem C7_filter_events_invariant_witness :
    [⟨entryFriday2000.token, ⟨2025, 11, 14, 20, 0, 0, 0, some (-180)⟩⟩] =
      List.filterMap (keepEntry (fun _ => false) 525)
        [entryFriday2000, entryBoundary1900, ⟨some 999, none, none, "x".toList⟩] ∧
    ∀ ev ∈ [(⟨entryFriday2000.token, ⟨2025, 11, 14, 20, 0, 0, 0, some (-180)⟩⟩ :
        ScheduleEvent)],
      ∃ e ∈ [entryFriday2000, entryBoundary1900, ⟨some 999, none, none, "x".toList⟩],
        e.instructor = some 525 ∧ e.closed_at = none ∧
        ∃ raw, e.start_time = some raw ∧ parse_start_time raw = .ok ev.start_time ∧
          ev.token = e.token ∧
          (classify_event_day (fun _ => false) ev.start_time = "dia_de_semana".toList →
            timeAtMost19 ev.start_time = false) :=
  C7_filter_events_invariant (fun _ => false) 525
    [entryFriday2000, entryBoundary1900, ⟨some 999, none, none, "x".toList⟩]
    [⟨entryFriday2000.token, ⟨2025, 11, 14, 20, 0, 0, 0, some (-180)⟩⟩] (by decide)

/-!  ## C3 — grouping and date headers -/

/-- Updating a key rewrites exactly that key's binding. -/
theorem assocFind_update_self {α : Type} (k : Str) (f : α → α) (l : List (Str × α)) :
    assocFind k (assocUpdate k f l) = (assocFind k l).map f := by
  induction l with
  | nil => rfl
  | cons p rest ih =>
    obtain ⟨k2, v⟩ := p
    by_cases hk : k2 = k
    · simp [assocUpdate, assocFind, hk]
    · simp [assocUpdate, assocFind, hk, ih]

/-- Updating one key leaves other keys' bindings unchanged. -/
theorem assocFind_update_ne {α : Type} (k k2 : Str) (hne : k ≠ k2) (f : α → α)
    (l : List (Str × α)) : assocFind k2 (assocUpdate k f l) = assocFind k2 l := by
  induction l with
  | nil => rfl
  | cons p rest ih =>
    obtain ⟨k3, v⟩ := p
    by_cases hk : k3 = k
    · subst hk
      simp [assocUpdate, assocFind, hne]
    · simp [assocUpdate, assocFind, hk, ih]

/-- Appending a fresh key does not affect lookups of other keys. -/
theorem assocFind_append_singleton_ne {α : Type} (k k2 : Str) (hne : k2 ≠ k) (v : α)
    (l : List (Str × α)) : assocFind k2 (l ++ [(k, v)]) = assocFind k2 l := by
  induction l with
  | nil => simp [assocFind, Ne.symm hne]
  | cons p rest ih =>
    obtain ⟨k3, w⟩ := p
    by_cases hk : k3 = k2
    · simp [assocFind, hk]
    · simp [assocFind, hk, ih]

/-- Appending a key that was absent makes it found. -/
theorem assocFind_append_singleton_none {α : Type} (k : Str) (v : α)
    (l : List (Str × α)) (h : assocFind k l = none) :
    assocFind k (l ++ [(k, v)]) = some v := by
  induction l with
  | nil => simp [assocFind]
  | cons p rest ih =>
    obtain ⟨k3, w⟩ := p
    by_cases hk : k3 = k
    · simp [assocFind, hk] at h
    · simp [assocFind, hk] at h ⊢
      exact ih h

/-- A spot stored in a found group is in the bucket's flattened spots. -/
theorem mem_flatten_of_assocFind (k : Str) (gs : List (Str × EventGroup)) (g : EventGroup)
    (hfind : assocFind k gs = some g) (s : Spot) (hs : s ∈ g.spots) :
    s ∈ (gs.map fun p => p.2.spots).flatten := by
  induction gs with
  | nil => cases hfind
  | cons p rest ih =>
    obtain ⟨k2, v⟩ := p
    simp only [List.map_cons, List.flatten_cons, List.mem_append]
    by_cases hk : k2 = k
    · simp only [assocFind, hk, if_true, Option.some.injEq] at hfind
      left
      rw [hfind]
      exact hs
    · simp only [assocFind, hk, if_false] at hfind
      right
      exact ih hfind

/-- Updating groups with a spots-preserving function preserves bucket
membership. -/
theorem mem_flatten_assocUpdate (k : Str) (f : EventGroup → EventGroup)
    (hf : ∀ (g : EventGroup), ∀ x ∈ g.spots, x ∈ (f g).spots)
    (gs : List (Str × EventGroup)) (s : Spot)
    (hs : s ∈ (gs.map fun p => p.2.spots).flatten) :
    s ∈ ((assocUpdate k f gs).map fun p => p.2.spots).flatten := by
  induction gs with
  | nil => exact hs
  | cons p rest ih =>
    obtain ⟨k2, v⟩ := p
    simp only [List.map_cons, List.flatten_cons, List.mem_append] at hs
    by_cases hk : k2 = k
    · simp only [assocUpdate, hk, if_true, List.map_cons, List.flatten_cons, List.mem_append]
      rcases hs with hs | hs
      · exact Or.inl (hf v s hs)
      · exact Or.inr hs
    · simp only [assocUpdate, hk, if_false, List.map_cons, List.flatten_cons, List.mem_append]
      rcases hs with hs | hs
      · exact Or.inl hs
      · exact Or.inr (ih hs)

/-- Appending a fresh group preserves bucket membership. -/
theorem mem_flatten_append_group (gs : List (Str × EventGroup)) (x : Str × EventGroup)
    (s : Spot) (hs : s ∈ (gs.map fun p => p.2.spots).flatten) :
    s ∈ ((gs ++ [x]).map fun p => p.2.spots).flatten := by
  simp only [List.map_append, List.flatten_append, List.mem_append]
  exact Or.inl hs

/-- The spot added by one grouping iteration lands in the bucket keyed
by its own day key. -/
theorem addSpotToGroups_self (acc : GroupedByDay) (s : Spot) :
    s ∈ bucketSpots (addSpotToGroups acc s) (dayKeyOf s) := by
  unfold addSpotToGroups bucketSpots
  set dk := dayKeyOf s with hdk
  set ek := eventKeyOf s with hek
  set sdt := tg_parse_start_time s.start_time with hsdt
  set acc1 := if (assocFind dk acc).isSome then acc else acc ++ [(dk, [])] with hacc1
  have hfind1 : ∃ groups0, assocFind dk acc1 = some groups0 := by
    rw [hacc1]
    cases hf : assocFind dk acc with
    | some g => exact ⟨g, by simp [hf]⟩
    | none =>
      refine ⟨[], ?_⟩
      simp only [hf, Option.isSome_none, Bool.false_eq_true, if_false]
      exact assocFind_append_singleton_none dk [] acc hf
  obtain ⟨groups0, hgroups0⟩ := hfind1
  rw [assocFind_update_self, hgroups0]
  simp only [Option.map_some]
  set groups1 := if (assocFind ek groups0).isSome then groups0
                 else groups0 ++ [(ek, EventGroup.mk [] sdt)] with hgroups1
  have hfind2 : ∃ g0, assocFind ek groups1 = some g0 := by
    rw [hgroups1]
    cases hf : assocFind ek groups0 with
    | some g => exact ⟨g, by simp [hf]⟩
    | none =>
      refine ⟨EventGroup.mk [] sdt, ?_⟩
      simp only [hf, Option.isSome_none, Bool.false_eq_true, if_false]
      exact assocFind_append_singleton_none ek _ groups0 hf
  obtain ⟨g0, hg0⟩ := hfind2
  apply mem_flatten_of_assocFind ek _ _ (by rw [assocFind_update_self, hg0]; rfl)
  simp only []
  exact List.mem_append_right _ (List.mem_cons_self s [])

/-- One grouping iteration never removes a spot from any bucket. -/
theorem addSpotToGroups_preserve (acc : GroupedByDay) (t s : Spot) (k : Str)
    (hs : s ∈ bucketSpots acc k) :
    s ∈ bucketSpots (addSpotToGroups acc t) k := by
  unfold bucketSpots at hs
  cases hfind : assocFind k acc with
  | none => rw [hfind] at hs; cases hs
  | some groups =>
    rw [hfind] at hs
    unfold addSpotToGroups bucketSpots
    set dk := dayKeyOf t with hdk
    set ek := eventKeyOf t with hek
    set sdt := tg_parse_start_time t.start_time with hsdt
    dsimp only
    by_cases hkdk : dk = k
    · subst hkdk
      rw [if_pos (by rw [hfind]; rfl)]
      rw [assocFind_update_self, hfind]
      apply mem_flatten_assocUpdate
      · intro g x hx
        simp only []
        exact List.mem_append_left _ (by
          by_cases hg : g.start_dt = none ∧ sdt.isSome
          · rw [if_pos hg]
            exact hx
          · rw [if_neg hg]
            exact hx)
      · by_cases hfe : (assocFind ek groups).isSome
        · rw [if_pos hfe]
          exact hs
        · rw [if_neg hfe]
          exact mem_flatten_append_group groups _ s hs
    · have hacc1 : assocFind k (if (assocFind dk acc).isSome then acc
          else acc ++ [(dk, [])]) = some groups := by
        by_cases hf : (assocFind dk acc).isSome
        · rw [if_pos hf]
          exact hfind
        · rw [if_neg hf]
          rw [assocFind_append_singleton_ne dk k (fun h => hkdk h.symm) [] acc]
          exact hfind
      rw [assocFind_update_ne dk k hkdk, hacc1]
      exact hs

/-- Over the whole grouping loop: a spot already in bucket `k`, or still
to be consumed with day key `k`, ends up in bucket `k`. -/
theorem bucket_mem_foldl (l : List Spot) (acc : GroupedByDay) (s : Spot) (k : Str)
    (h : s ∈ bucketSpots acc k ∨ (s ∈ l ∧ k = dayKeyOf s)) :
    s ∈ bucketSpots (l.foldl addSpotToGroups acc) k := by
  induction l generalizing acc with
  | nil =>
    rcases h with h | ⟨hmem, _⟩
    · exact h
    · cases hmem
  | cons t rest ih =>
    rw [List.foldl_cons]
    apply ih
    rcases h with h | ⟨hmem, hk⟩
    · exact Or.inl (addSpotToGroups_preserve acc t s k h)
    · rcases List.mem_cons.mp hmem with heq | hmem2
      · subst heq
        subst hk
        exact Or.inl (addSpotToGroups_self acc s)
      · exact Or.inr ⟨hmem2, hk⟩

/-- C3 counterexample: (i) with one dated spot and one spot lacking
both `start_time` and `event_hour`, the "unknown date" bucket sorts
*first*, not last (its sort key is the empty string); (ii) the spot the
pipeline extracts from the end-to-end scenario payload carries no
`start_time` key at all, so it is rendered under "Data não informada"
and *not* under a "14/11/2025 (Sexta-feira)" heading. -/
theorem C3_counterexample_grouping :
    ((buildGroups (sortSpots [spotWithStart, spotNoDate])).map Prod.fst =
       ["sem-data".toList, "2025-11-14".toList] ∧
     ((buildGroups (sortSpots [spotWithStart, spotNoDate])).map Prod.fst).getLast? ≠
       some ("sem-data".toList)) ∧
    (extract_available_spots detailOneFreeSeat = [pipelineSpot] ∧
     dayKeyOf pipelineSpot = "sem-data".toList ∧
     strContains ("14/11/2025".toList)
       (format_spot_summary (extract_available_spots detailOneFreeSeat)).plain_text
         = false ∧
     strContains ("Data não informada".toList)
       (format_spot_summary (extract_available_spots detailOneFreeSeat)).plain_text
         = true) := by
  decide

/-- C3 amended: the formatter groups spots by the calendar date of
their parsed `start_time` — every sorted spot lands in the bucket keyed
by its own day key, with missing/unparseable `start_time` keyed
`"sem-data"` — and renders each dated bucket's header as the localized
weekday name after the `DD/MM/YYYY` date.  The bucket order follows the
string sort key (`start_time` or `event_hour` or `""`), which places the
unknown-date bucket *first* when those fields are absent.  A spot dict
that does carry `start_time 2025-11-14T20:00:00-03:00` is rendered under
the "📅 14/11/2025 (Sexta-feira)" heading, above its seat line. -/
theorem C3_format_grouping_amended :
    (∀ (spots : List Spot) (s : Spot), s ∈ sortSpots spots →
       s ∈ bucketSpots (buildGroups (sortSpots spots)) (dayKeyOf s)) ∧
    (∀ dt : PyDateTime, (dayHeader (some dt)).2 =
       "📅 ".toList ++ dateLabel dt ++ " (".toList ++
         WEEKDAY_LABELS.getD (pyWeekday dt) [] ++ ")".toList) ∧
    ((buildGroups (sortSpots [spotWithStart, spotNoDate])).map Prod.fst =
       ["sem-data".toList, "2025-11-14".toList]) ∧
    (List.indexOf ("📅 14/11/2025 (Sexta-feira)".toList)
        (formatLines (sortSpots [spotWithStart])).2 <
      List.indexOf ("│ 🚲 1 bike livres: B01".toList)
        (formatLines (sortSpots [spotWithStart])).2 ∧
     ("📅 14/11/2025 (Sexta-feira)".toList) ∈ (formatLines (sortSpots [spotWithStart])).2 ∧
     ("│ 🚲 1 bike livres: B01".toList) ∈ (formatLines (sortSpots [spotWithStart])).2) := by
  refine ⟨?_, ?_, by decide, by decide⟩
  · intro spots s hs
    exact bucket_mem_foldl (sortSpots spots) [] s (dayKeyOf s) (Or.inr ⟨hs, rfl⟩)
  · intro dt
    rfl

/-- Witness for the amended C3: the dated spot lands in its own date
bucket of the grouped structure. -/
theorem C3_format_grouping_amended_witness :
    spotWithStart ∈
      bucketSpots (buildGroups (sortSpots [spotWithStart])) (dayKeyOf spotWithStart) :=
  C3_format_grouping_amended.1 [spotWithStart] spotWithStart (by decide)
